import Mathlib

/-!
Shallow embedding of the record/index synchronization layer of dbdicom
(src/dbdicom/classes/record.py), together with theorems settling the
frozen claims about it.

The tabular index (the `folder.dataframe` of the source) is a list of
rows, one per instance file, carrying the four hierarchy identifiers,
the `removed` and `created` staging flags, and the file name.  UIDs and
file names are modelled as natural numbers; the UID generator
(`pydicom.uid.generate_uid` / `folder.new_uid`) and the file allocator
(`folder.new_file`) are modelled as counters held in the state, so that
"freshly generated" is expressed by counter bounds.  A record is its UID
tuple (a list of identifiers); its generation is the tuple's length.
-/

namespace DbDicom

/-- Identifiers (PatientID, StudyInstanceUID, SeriesInstanceUID,
SOPInstanceUID) are opaque strings in the source, generated by a
UUID-like generator; modelled as naturals drawn from a counter. -/
abbrev Uid := Nat

/-- One row of `folder.dataframe`: the file name (the dataframe index),
the four hierarchy identifier columns `folder._columns[0:4]` =
[PatientID, StudyInstanceUID, SeriesInstanceUID, SOPInstanceUID], and
the two staging flags.  Cached descriptive attribute columns
(`folder._columns[4:]`) are omitted: no claim mentions them and no
embedded operation reads them. -/
structure Row where
  file : Nat
  patientID : Nat
  studyInstanceUID : Nat
  seriesInstanceUID : Nat
  sopInstanceUID : Nat
  removed : Bool
  created : Bool
deriving Repr, DecidableEq

/-- A file on disk: its name and the four hierarchy identifiers that
`utilities._initialize` stamps into it on write (the rest of the file
content plays no role in any claim). -/
structure DFile where
  name : Nat
  patientID : Nat
  studyInstanceUID : Nat
  seriesInstanceUID : Nat
  sopInstanceUID : Nat
deriving Repr, DecidableEq

/-- The identifier column of index `k` (`folder._columns[k]` for k < 4). -/
def Row.col (row : Row) : Nat → Nat
  | 0 => row.patientID
  | 1 => row.studyInstanceUID
  | 2 => row.seriesInstanceUID
  | _ => row.sopInstanceUID

/-- Overwrite the identifier column of index `k`. -/
def Row.setCol (row : Row) (k : Nat) (u : Nat) : Row :=
  match k with
  | 0 => { row with patientID := u }
  | 1 => { row with studyInstanceUID := u }
  | 2 => { row with seriesInstanceUID := u }
  | _ => { row with sopInstanceUID := u }

/-- `df.loc[file, columns[k:k+len us]] = us`: write the identifiers `us`
into consecutive columns starting at `k`. -/
def Row.setColsFrom : Row → Nat → List Nat → Row
  | row, _, [] => row
  | row, k, u :: rest => Row.setColsFrom (row.setCol k u) (k + 1) rest

/-- The four identifier columns of a row as a tuple. -/
def Row.uids (row : Row) : List Nat :=
  [row.patientID, row.studyInstanceUID, row.seriesInstanceUID, row.sopInstanceUID]

/-- The shared state: the tabular index (`folder.dataframe`), the files
on disk, the UID counter (modelling `pydicom.uid.generate_uid` and
`folder.new_uid`, which by the spec never collide with existing rows or
with identifiers generated in the same session), the file-name counter
(modelling `folder.new_file`), and whether `folder.path is None`
(an in-memory database). -/
@[ext]
structure Db where
  rows : List Row
  disk : List DFile
  uidCtr : Nat
  fileCtr : Nat
  pathIsNone : Bool
deriving Repr, DecidableEq

/-- `Record.data()`: the rows of the record.  Source: if `folder.path is
None` the whole dataframe is returned; otherwise the rows not flagged
`removed` whose column `key[-1]` (the identifier column of the record's
generation) equals the record's last UID component; for the database
record (empty UID) all non-removed rows. -/
def Record.data (s : Db) (r : List Nat) : List Row :=
  if s.pathIsNone then s.rows
  else
    let current := s.rows.filter (fun row => !row.removed)
    if r.isEmpty then current
    else current.filter (fun row => row.col (r.length - 1) = r.getLastD 0)

/-- `Record.remove()`: if the record has no files, do nothing; otherwise
set `removed = True` on the index rows of `self.data().index`
(matched by file label, as pandas `.loc` does). -/
def Record.remove (s : Db) (r : List Nat) : Db :=
  let d := Record.data s r
  if d.isEmpty then s
  else
    { s with rows := s.rows.map (fun row =>
        if d.any (fun q => q.file = row.file) then { row with removed := true } else row) }

/-- `Record.__init__`: the UID tuple is padded with freshly generated
UIDs while `generation > len(UID)`.  The source invokes this through
`self.__class__(self.folder, UID=ancestor.UID)`; the generation-fixing
subclass constructors are not under src, so, modelled from the spec,
the target generation passed here is the source record's generation
("for every hierarchy level from the source's generation down to
generation 3 (series), a fresh UID"). -/
def recordInit (s : Db) (uid : List Nat) (gen : Nat) : List Nat × Db :=
  let k := gen - uid.length
  (uid ++ (List.range k).map (fun i => s.uidCtr + i), { s with uidCtr := s.uidCtr + k })

/-- Reference form of pandas `Series.unique()` used in proofs: the
first element followed by the distinct values of the tail with the
first element filtered out. -/
def firstOccurRec : List Nat → List Nat
  | [] => []
  | u :: rest => u :: firstOccurRec (rest.filter (fun v => v ≠ u))
termination_by l => l.length
decreasing_by
  exact Nat.lt_succ_of_le (List.length_filter_le _ _)

/-- pandas `Series.unique()` with an accumulator of already-seen
values (structural recursion, so that concrete states evaluate). -/
def firstOccurFrom : List Nat → List Nat → List Nat
  | _, [] => []
  | seen, u :: rest =>
    if u ∈ seen then firstOccurFrom seen rest
    else u :: firstOccurFrom (u :: seen) rest

/-- pandas `Series.unique()`: the distinct values of a column in order
of first appearance. -/
def firstOccur (l : List Nat) : List Nat := firstOccurFrom [] l

/-- Map with the position index, starting at `i0`. -/
def mapIdxFrom (f : Nat → Row → Row) : Nat → List Row → List Row
  | _, [] => []
  | i, row :: rest => f i row :: mapIdxFrom f (i + 1) rest

/-- Map with the position index (pandas assignment of a fresh value per
row position). -/
def mapIdx (f : Nat → Row → Row) (l : List Row) : List Row :=
  mapIdxFrom f 0 l

/-- One iteration group of the re-keying loop of `Record._merge_with`
(source lines 859-863) for column `k`:

    for id in df[key].unique():
        uid = self.folder.new_uid()
        rows = df[key] == id
        df.loc[rows.index, key] = uid

`rows` is a boolean pandas Series, so `rows.index` is the *entire*
index of `df`, not the rows matching `id`: each iteration overwrites
the whole column with the UID generated for that iteration.  After the
loop the whole column holds the UID generated for the last distinct
value, and the counter has advanced once per distinct value. -/
def rekeyCol (k : Nat) : List Row × Nat → List Row × Nat
  | (df, ctr) =>
    let vals := firstOccur (df.map (fun row => row.col k))
    if vals.isEmpty then (df, ctr)
    else (df.map (fun row => row.setCol k (ctr + vals.length - 1)), ctr + vals.length)

/-- The re-keying loop `for key in self.folder._columns[self.generation:3]`. -/
def rekeyCols (gen : Nat) (df : List Row) (ctr : Nat) : List Row × Nat :=
  ((List.range 3).drop gen).foldl (fun p k => rekeyCol k p) (df, ctr)

/-- The dataframe `df` of `Record._merge_with` after the per-row steps:
fresh file name per row, the re-keying loop over columns
`[generation, 3)`, `df.SOPInstanceUID = folder.new_uid(n)` (one fresh
UID per row), `removed = False`, `created = True`, and per file
`df.loc[file, columns[0:generation]] = obj.UID`. -/
def mergeNew (s : Db) (r : List Nat) (obj : List Nat) : List Row :=
  let df1 := mapIdx (fun i row => { row with file := s.fileCtr + i }) (Record.data s r)
  let p2 := rekeyCols r.length df1 s.uidCtr
  let df3 := mapIdx
    (fun i row => { row with sopInstanceUID := p2.2 + i, removed := false, created := true }) p2.1
  df3.map (fun row => row.setColsFrom 0 obj)

/-- The UID counter after the re-keying loop of `Record._merge_with`
(before the `new_uid(n)` call that assigns the fresh SOP UIDs). -/
def mergeCtr (s : Db) (r : List Nat) : Nat :=
  (rekeyCols r.length
    (mapIdx (fun i row => { row with file := s.fileCtr + i }) (Record.data s r)) s.uidCtr).2

/-- `Record._merge_with(obj)`: read the source's row set, build the new
rows (see `mergeNew`), rewrite each new file's identifiers from its row
and save it under its fresh name, and concatenate the new rows onto the
dataframe.  `new_file` was called once per source row and `new_uid`
once per distinct re-keyed value plus once per row (for the SOP
column), which the two counters record. -/
def Record.merge_with (s : Db) (r : List Nat) (obj : List Nat) : Db :=
  { s with
    rows := s.rows ++ mergeNew s r obj,
    disk := s.disk ++ (mergeNew s r obj).map (fun row =>
      ⟨row.file, row.patientID, row.studyInstanceUID, row.seriesInstanceUID, row.sopInstanceUID⟩),
    uidCtr := mergeCtr s r + (Record.data s r).length,
    fileCtr := s.fileCtr + (Record.data s r).length }

/-- `Record.copy_to(ancestor)`: nothing at generation 0; otherwise build
the copy record over the ancestor's UID (padded to the source's
generation with fresh UIDs, see `recordInit`) and merge into it. -/
def Record.copy_to (s : Db) (r : List Nat) (ancestor : List Nat) : Db :=
  if r.length = 0 then s
  else
    let p := recordInit s ancestor r.length
    Record.merge_with p.2 r p.1

/-- The UID tuple of the record returned by `Record.copy_to`. -/
def Record.copy_uid (s : Db) (r : List Nat) (ancestor : List Nat) : List Nat :=
  if r.length = 0 then r else (recordInit s ancestor r.length).1

/-- `Record.move_to(ancestor)`: `copy = self.copy_to(ancestor);
self.remove()`. -/
def Record.move_to (s : Db) (r : List Nat) (ancestor : List Nat) : Db :=
  Record.remove (Record.copy_to s r ancestor) r

/-- The scope of `Record.save` / `Record.restore`: the whole dataframe
at generation 0, otherwise the rows of the *full* dataframe
(including removed ones) whose column `key[-1]` equals the record's
last UID component. -/
def Record.scope (s : Db) (r : List Nat) : List Row :=
  if r.length = 0 then s.rows
  else s.rows.filter (fun row => row.col (r.length - 1) = r.getLastD 0)

/-- `Record.save()`: within the record's scope, delete from disk the
files of rows flagged `removed` (skipping absent files), clear the
`created` flag on rows flagged `created`, and drop the removed rows
from the dataframe. -/
def Record.save (s : Db) (r : List Nat) : Db :=
  let data := Record.scope s r
  let createdFiles := (data.filter (fun row => row.created)).map (fun row => row.file)
  let removedFiles := (data.filter (fun row => row.removed)).map (fun row => row.file)
  { s with
    disk := s.disk.filter (fun f => f.name ∉ removedFiles),
    rows := (s.rows.map (fun row =>
        if row.file ∈ createdFiles then { row with created := false } else row)).filter
      (fun row => row.file ∉ removedFiles) }

/-- `Record.restore()`: within the record's scope, delete from disk the
files of rows flagged `created`, clear the `removed` flag on rows
flagged `removed`, and drop the created rows from the dataframe. -/
def Record.restore (s : Db) (r : List Nat) : Db :=
  let data := Record.scope s r
  let createdFiles := (data.filter (fun row => row.created)).map (fun row => row.file)
  let removedFiles := (data.filter (fun row => row.removed)).map (fun row => row.file)
  { s with
    disk := s.disk.filter (fun f => f.name ∉ createdFiles),
    rows := (s.rows.map (fun row =>
        if row.file ∈ removedFiles then { row with removed := false } else row)).filter
      (fun row => row.file ∉ createdFiles) }

/-- `Record.records(generation)` without the `index` argument: at
generation 0 the database object; otherwise, over the record's
`data()`, the distinct values (in order of first appearance) of the
identifier column `columns[generation-1]`, each turned into the record
whose UID tuple is the first `generation` identifier columns of the
first row carrying that value (`dicm.object(folder, row, generation)`),
then filtered by the predicate built from the keyword criteria
(`utilities._filter`, modelled as an opaque predicate on records). -/
def Record.records (s : Db) (r : List Nat) (gen : Nat) (p : List Nat → Bool) :
    List (List Nat) :=
  if gen = 0 then List.filter p [[]]
  else
    let d := Record.data s r
    if d.isEmpty then []
    else
      let recList := firstOccur (d.map (fun row => row.col (gen - 1)))
      let objs := recList.filterMap (fun v =>
        (d.find? (fun row => row.col (gen - 1) = v)).map
          (fun row0 => (List.range gen).map row0.col))
      objs.filter p

/-- `Record.children()`: empty at generation 4, otherwise the records of
the next generation. -/
def Record.children (s : Db) (r : List Nat) (p : List Nat → Bool) : List (List Nat) :=
  if r.length = 4 then [] else Record.records s r (r.length + 1) p

/-- Modelled from the spec: the success branch of `Record.set_array`
(`db.copy` of the header instances into the target series followed by
writing the slices), which lives outside src: `n` copied instances are
staged `created = True` under the series with fresh SOP UIDs and fresh
files.  The series is the record itself at generation 3, otherwise a
new series with a freshly generated SeriesInstanceUID
(`self.new_series()`). -/
def setArrayBody (s : Db) (r : List Nat) (n : Nat) : Db :=
  let p := if r.length = 3 then (r, s) else recordInit s (r.take 2) 3
  let ser := p.1
  let s1 := p.2
  let newRows := (List.range n).map (fun i =>
    { file := s1.fileCtr + i,
      patientID := ser.getD 0 0, studyInstanceUID := ser.getD 1 0,
      seriesInstanceUID := ser.getD 2 0, sopInstanceUID := s1.uidCtr + i,
      removed := false, created := true : Row })
  { s1 with
    rows := s1.rows ++ newRows,
    disk := s1.disk ++ newRows.map (fun row =>
      ⟨row.file, row.patientID, row.studyInstanceUID, row.seriesInstanceUID, row.sopInstanceUID⟩),
    uidCtr := s1.uidCtr + n,
    fileCtr := s1.fileCtr + n }

/-- `Record.set_array(array, dataset, pixels_first)` at the level of
shapes: `pixels_first = True` moves the two leading pixel axes to the
end (`np.moveaxis(array, 0, -1)` twice), `nr_of_slices` is the product
of `array.shape[:-2]`, and when it differs from the number of header
datasets provided (`np.prod(dataset.shape)`) an error dialog is raised
and `ValueError` thrown before any index row or file is touched;
otherwise the write proceeds (see `setArrayBody`).  The returned state
is the state when the call finishes or raises. -/
def Record.set_array (s : Db) (r : List Nat) (arrayShape datasetShape : List Nat)
    (pixelsFirst : Bool) : Db × Option String :=
  let ashape := if pixelsFirst then arrayShape.drop 2 ++ arrayShape.take 2 else arrayShape
  let nrOfSlices := (ashape.dropLast.dropLast).prod
  if nrOfSlices ≠ datasetShape.prod then
    (s, some "Error in set_array(): array and dataset do not match")
  else
    (setArrayBody s r nrOfSlices, none)

/-- Modelled from the spec: the `new_*` creation writers (the
`dicm.new_child` chain is not under src): "allocates fresh UIDs and,
for leaf generation, stages a `created=True` row" — a new instance
under `parent`, with the missing UID components freshly generated, a
fresh file, inserted with `created = True` and `removed = False`. -/
def newInstance (s : Db) (parent : List Nat) : Db :=
  let p := recordInit s parent 4
  let u := p.1
  let s1 := p.2
  let row : Row :=
    ⟨s1.fileCtr, u.getD 0 0, u.getD 1 0, u.getD 2 0, u.getD 3 0, false, true⟩
  { s1 with
    rows := s1.rows ++ [row],
    disk := s1.disk ++
      [⟨row.file, row.patientID, row.studyInstanceUID, row.seriesInstanceUID, row.sopInstanceUID⟩],
    fileCtr := s1.fileCtr + 1 }

/-- `Record.new_uid()` delegates to `pydicom.uid.generate_uid`: one
freshly generated identifier, modelled as consuming the counter. -/
def Record.new_uid (s : Db) : Nat × Db :=
  (s.uidCtr, { s with uidCtr := s.uidCtr + 1 })

/-- The operations named by claim C4, applied unguarded. -/
inductive Op
  | newInst (parent : List Nat)
  | copyTo (r dst : List Nat)
  | moveTo (r dst : List Nat)
  | mergeWith (r obj : List Nat)
  | removeRec (r : List Nat)
  | saveRec (r : List Nat)
  | restoreRec (r : List Nat)

/-- Apply one operation to the database state. -/
def applyOp (s : Db) : Op → Db
  | .newInst parent => newInstance s parent
  | .copyTo r dst => Record.copy_to s r dst
  | .moveTo r dst => Record.move_to s r dst
  | .mergeWith r obj => Record.merge_with s r obj
  | .removeRec r => Record.remove s r
  | .saveRec r => Record.save s r
  | .restoreRec r => Record.restore s r

/-- Apply a sequence of operations. -/
def applyOps (s : Db) (ops : List Op) : Db :=
  ops.foldl applyOp s

/-- No index row carries both staging flags at once. -/
def FlagsOK (s : Db) : Prop :=
  ∀ row ∈ s.rows, ¬(row.created = true ∧ row.removed = true)

/-- The spec's file-name invariants: no two rows share a file path, and
every file name is below the allocator counter. -/
def FilesOK (s : Db) : Prop :=
  (s.rows.map Row.file).Nodup ∧ ∀ row ∈ s.rows, row.file < s.fileCtr

/-- SOPInstanceUID invariants on a disk-backed database: every SOP UID
is below the generator counter and no two rows share one. -/
def SopOK (s : Db) : Prop :=
  s.pathIsNone = false
  ∧ (∀ row ∈ s.rows, row.sopInstanceUID < s.uidCtr)
  ∧ (s.rows.map Row.sopInstanceUID).Nodup

/-- The operation sequences of claim C4, with the amendment's guard:
`remove()` — also the removal step inside `move_to()` — is only invoked
on records none of whose current `data()` rows are staged `created`. -/
inductive Reach4 : Db → Db → Prop
  | refl (s : Db) : Reach4 s s
  | newInst (s0 s : Db) (parent : List Nat) :
      Reach4 s0 s → Reach4 s0 (newInstance s parent)
  | copyTo (s0 s : Db) (r dst : List Nat) :
      Reach4 s0 s → Reach4 s0 (Record.copy_to s r dst)
  | mergeWith (s0 s : Db) (r obj : List Nat) :
      Reach4 s0 s → Reach4 s0 (Record.merge_with s r obj)
  | removeRec (s0 s : Db) (r : List Nat) :
      Reach4 s0 s → (∀ row ∈ Record.data s r, row.created = false) →
      Reach4 s0 (Record.remove s r)
  | moveTo (s0 s : Db) (r dst : List Nat) :
      Reach4 s0 s →
      (∀ row ∈ Record.data (Record.copy_to s r dst) r, row.created = false) →
      Reach4 s0 (Record.move_to s r dst)
  | saveRec (s0 s : Db) (r : List Nat) :
      Reach4 s0 s → Reach4 s0 (Record.save s r)
  | restoreRec (s0 s : Db) (r : List Nat) :
      Reach4 s0 s → Reach4 s0 (Record.restore s r)

/-- The operation sequences of claim C6, with the amendment's guards:
`merge_with` is only invoked on a source of generation at most 3 with a
destination record of the same generation, and `copy_to` moves a record
of generation 1-4 to a proper ancestor. -/
inductive Reach6 : Db → Db → Prop
  | refl (s : Db) : Reach6 s s
  | newUid (s0 s : Db) : Reach6 s0 s → Reach6 s0 (Record.new_uid s).2
  | copyTo (s0 s : Db) (r dst : List Nat) :
      Reach6 s0 s → 1 ≤ r.length → r.length ≤ 4 → dst.length < r.length →
      Reach6 s0 (Record.copy_to s r dst)
  | mergeWith (s0 s : Db) (r obj : List Nat) :
      Reach6 s0 s → 1 ≤ r.length → r.length ≤ 3 → obj.length = r.length →
      Reach6 s0 (Record.merge_with s r obj)

/-! ## Basic lemmas about rows and columns -/

theorem col_setCol_self (row : Row) (k : Nat) (u : Nat) : (row.setCol k u).col k = u :=
  match k with
  | 0 => rfl
  | 1 => rfl
  | 2 => rfl
  | _ + 3 => rfl

theorem col_setCol_of_ne (row : Row) (k : Nat) (u : Nat) (j : Nat)
    (hor : j < 3 ∨ k < 3) (hne : j ≠ k) : (row.setCol k u).col j = row.col j := by
  rcases j with _ | _ | _ | j <;> rcases k with _ | _ | _ | k <;>
    first
      | rfl
      | exact absurd rfl hne
      | omega

theorem file_setCol (row : Row) (k : Nat) (u : Nat) : (row.setCol k u).file = row.file := by
  rcases k with _ | _ | _ | k <;> rfl

theorem removed_setCol (row : Row) (k : Nat) (u : Nat) :
    (row.setCol k u).removed = row.removed := by
  rcases k with _ | _ | _ | k <;> rfl

theorem created_setCol (row : Row) (k : Nat) (u : Nat) :
    (row.setCol k u).created = row.created := by
  rcases k with _ | _ | _ | k <;> rfl

theorem sop_setCol (row : Row) (k : Nat) (u : Nat) (hk : k < 3) :
    (row.setCol k u).sopInstanceUID = row.sopInstanceUID := by
  rcases k with _ | _ | _ | k <;> first | rfl | omega

theorem col_three (row : Row) : row.col 3 = row.sopInstanceUID := rfl

theorem uids_eq_cols (row : Row) : row.uids = [row.col 0, row.col 1, row.col 2, row.col 3] := rfl

theorem setColsFrom_col_of_lt : ∀ (us : List Nat) (k : Nat) (row : Row) (j : Nat),
    k + us.length ≤ 4 → j < k → (row.setColsFrom k us).col j = row.col j
  | [], _, _, _, _, _ => rfl
  | u :: rest, k, row, j, h4, hj => by
    show (Row.setColsFrom (row.setCol k u) (k + 1) rest).col j = row.col j
    rw [setColsFrom_col_of_lt rest (k + 1) (row.setCol k u) j
      (by simp only [List.length_cons] at h4; omega) (by omega)]
    exact col_setCol_of_ne row k u j (by simp only [List.length_cons] at h4; omega) (by omega)

theorem setColsFrom_col_in : ∀ (us : List Nat) (k : Nat) (row : Row) (j : Nat),
    k + us.length ≤ 4 → k ≤ j → j < k + us.length →
    (row.setColsFrom k us).col j = us.getD (j - k) 0
  | [], k, _, j, _, h1, h2 => by simp at h2; omega
  | u :: rest, k, row, j, h4, h1, h2 => by
    show (Row.setColsFrom (row.setCol k u) (k + 1) rest).col j = _
    rcases Nat.eq_or_lt_of_le h1 with heq | hlt
    · subst heq
      rw [setColsFrom_col_of_lt rest (k + 1) (row.setCol k u) k
        (by simp only [List.length_cons] at h4; omega) (Nat.lt_succ_self k)]
      simpa using col_setCol_self row k u
    · rw [setColsFrom_col_in rest (k + 1) (row.setCol k u) j
        (by simp only [List.length_cons] at h4; omega) hlt
        (by simp only [List.length_cons] at h2; omega)]
      have hjk : j - k = (j - (k + 1)) + 1 := by omega
      simp [hjk]

theorem setColsFrom_col_of_ge : ∀ (us : List Nat) (k : Nat) (row : Row) (j : Nat),
    k + us.length ≤ 4 → k + us.length ≤ j → j ≤ 3 →
    (row.setColsFrom k us).col j = row.col j
  | [], _, _, _, _, _, _ => rfl
  | u :: rest, k, row, j, h4, hge, hj => by
    show (Row.setColsFrom (row.setCol k u) (k + 1) rest).col j = row.col j
    rw [setColsFrom_col_of_ge rest (k + 1) (row.setCol k u) j
      (by simp only [List.length_cons] at h4; omega)
      (by simp only [List.length_cons] at hge; omega) hj]
    exact col_setCol_of_ne row k u j (by simp only [List.length_cons] at hge; omega)
      (by simp only [List.length_cons] at hge; omega)

theorem file_setColsFrom : ∀ (us : List Nat) (k : Nat) (row : Row),
    (row.setColsFrom k us).file = row.file
  | [], _, _ => rfl
  | u :: rest, k, row => by
    show (Row.setColsFrom (row.setCol k u) (k + 1) rest).file = row.file
    rw [file_setColsFrom rest (k + 1) (row.setCol k u)]
    exact file_setCol row k u

theorem removed_setColsFrom : ∀ (us : List Nat) (k : Nat) (row : Row),
    (row.setColsFrom k us).removed = row.removed
  | [], _, _ => rfl
  | u :: rest, k, row => by
    show (Row.setColsFrom (row.setCol k u) (k + 1) rest).removed = row.removed
    rw [removed_setColsFrom rest (k + 1) (row.setCol k u)]
    exact removed_setCol row k u

theorem created_setColsFrom : ∀ (us : List Nat) (k : Nat) (row : Row),
    (row.setColsFrom k us).created = row.created
  | [], _, _ => rfl
  | u :: rest, k, row => by
    show (Row.setColsFrom (row.setCol k u) (k + 1) rest).created = row.created
    rw [created_setColsFrom rest (k + 1) (row.setCol k u)]
    exact created_setCol row k u

theorem sop_setColsFrom : ∀ (us : List Nat) (k : Nat) (row : Row),
    k + us.length ≤ 3 → (row.setColsFrom k us).sopInstanceUID = row.sopInstanceUID
  | [], _, _, _ => rfl
  | u :: rest, k, row, h3 => by
    show (Row.setColsFrom (row.setCol k u) (k + 1) rest).sopInstanceUID = _
    rw [sop_setColsFrom rest (k + 1) (row.setCol k u)
      (by simp only [List.length_cons] at h3; omega)]
    exact sop_setCol row k u (by simp only [List.length_cons] at h3; omega)

/-! ## Lemmas about `mapIdx` -/

theorem length_mapIdxFrom (f : Nat → Row → Row) :
    ∀ (i : Nat) (l : List Row), (mapIdxFrom f i l).length = l.length
  | _, [] => rfl
  | i, row :: rest => by
    show (f i row :: mapIdxFrom f (i + 1) rest).length = rest.length + 1
    simp [length_mapIdxFrom f (i + 1) rest]

theorem length_mapIdx (f : Nat → Row → Row) (l : List Row) :
    (mapIdx f l).length = l.length :=
  length_mapIdxFrom f 0 l

theorem mem_mapIdxFrom (f : Nat → Row → Row) :
    ∀ (i : Nat) (l : List Row) (row : Row), row ∈ mapIdxFrom f i l →
      ∃ j, j < l.length ∧ ∃ row0 ∈ l, row = f (i + j) row0
  | _, [], _, h => by simp [mapIdxFrom] at h
  | i, r0 :: rest, row, h => by
    have h' : row = f i r0 ∨ row ∈ mapIdxFrom f (i + 1) rest := by
      simpa [mapIdxFrom] using h
    rcases h' with h' | h'
    · exact ⟨0, by simp, r0, by simp, by simpa using h'⟩
    · obtain ⟨j, hj, row0, hrow0, heq⟩ := mem_mapIdxFrom f (i + 1) rest row h'
      exact ⟨j + 1, by simpa using hj, row0, by simp [hrow0],
        by rw [heq]; ring_nf⟩

theorem mem_mapIdx (f : Nat → Row → Row) (l : List Row) (row : Row)
    (h : row ∈ mapIdx f l) :
    ∃ j, j < l.length ∧ ∃ row0 ∈ l, row = f j row0 := by
  obtain ⟨j, hj, row0, hrow0, heq⟩ := mem_mapIdxFrom f 0 l row h
  exact ⟨j, hj, row0, hrow0, by simpa using heq⟩

theorem map_mapIdxFrom (h : Row → Nat) (f : Nat → Row → Row) (v : Nat → Nat)
    (hf : ∀ i row, h (f i row) = v i) :
    ∀ (i : Nat) (l : List Row),
      (mapIdxFrom f i l).map h = (List.range l.length).map (fun j => v (i + j))
  | _, [] => rfl
  | i, r0 :: rest => by
    show h (f i r0) :: (mapIdxFrom f (i + 1) rest).map h = _
    rw [hf, map_mapIdxFrom h f v hf (i + 1) rest]
    simp only [List.length_cons, List.range_succ_eq_map, List.map_cons, List.map_map]
    refine congrArg₂ _ (by simp) (List.map_congr_left ?_)
    intro a _
    show v (i + 1 + a) = v (i + Nat.succ a)
    exact congrArg v (by omega)

theorem map_mapIdx (h : Row → Nat) (f : Nat → Row → Row) (v : Nat → Nat)
    (hf : ∀ i row, h (f i row) = v i) (l : List Row) :
    (mapIdx f l).map h = (List.range l.length).map v := by
  rw [mapIdx, map_mapIdxFrom h f v hf 0 l]
  simp

theorem map_mapIdxFrom_invariant {β : Type} (h : Row → β) (f : Nat → Row → Row)
    (hf : ∀ i row, h (f i row) = h row) :
    ∀ (i : Nat) (l : List Row), (mapIdxFrom f i l).map h = l.map h
  | _, [] => rfl
  | i, r0 :: rest => by
    show h (f i r0) :: (mapIdxFrom f (i + 1) rest).map h = h r0 :: rest.map h
    rw [hf, map_mapIdxFrom_invariant h f hf (i + 1) rest]

theorem map_mapIdx_invariant {β : Type} (h : Row → β) (f : Nat → Row → Row)
    (hf : ∀ i row, h (f i row) = h row) (l : List Row) :
    (mapIdx f l).map h = l.map h :=
  map_mapIdxFrom_invariant h f hf 0 l

/-! ## Lemmas about `firstOccur` -/

theorem firstOccurRec_nil : firstOccurRec [] = [] := by rw [firstOccurRec]

theorem firstOccurRec_cons (u : Nat) (rest : List Nat) :
    firstOccurRec (u :: rest) = u :: firstOccurRec (rest.filter (fun v => v ≠ u)) := by
  rw [firstOccurRec]

theorem mem_firstOccurRec : ∀ (l : List Nat) (v : Nat), v ∈ firstOccurRec l ↔ v ∈ l
  | [], v => by simp [firstOccurRec_nil]
  | u :: rest, v => by
    rw [firstOccurRec_cons]
    by_cases hv : v = u
    · simp [hv]
    · rw [List.mem_cons, mem_firstOccurRec (rest.filter (fun x => x ≠ u)) v]
      simp [List.mem_filter, hv]
termination_by l => l.length
decreasing_by exact Nat.lt_succ_of_le (List.length_filter_le _ _)

theorem nodup_firstOccurRec : ∀ (l : List Nat), (firstOccurRec l).Nodup
  | [] => by simp [firstOccurRec_nil]
  | u :: rest => by
    rw [firstOccurRec_cons]
    refine List.nodup_cons.mpr ⟨?_, nodup_firstOccurRec (rest.filter (fun x => x ≠ u))⟩
    rw [mem_firstOccurRec]
    simp [List.mem_filter]
termination_by l => l.length
decreasing_by exact Nat.lt_succ_of_le (List.length_filter_le _ _)

/-- The accumulator form computes the reference form on the values not
yet seen. -/
theorem firstOccurFrom_eq : ∀ (l seen : List Nat),
    firstOccurFrom seen l = firstOccurRec (l.filter (fun v => v ∉ seen))
  | [], seen => by simp [firstOccurFrom, firstOccurRec_nil]
  | u :: rest, seen => by
    show (if u ∈ seen then firstOccurFrom seen rest
      else u :: firstOccurFrom (u :: seen) rest) = _
    by_cases hu : u ∈ seen
    · rw [if_pos hu, List.filter_cons_of_neg (by simpa using hu)]
      exact firstOccurFrom_eq rest seen
    · rw [if_neg hu, List.filter_cons_of_pos (by simpa using hu), firstOccurRec_cons,
        firstOccurFrom_eq rest (u :: seen), List.filter_filter]
      congr 1
      apply congrArg
      apply List.filter_congr
      intro v _
      by_cases hv : v = u
      · simp [hv]
      · by_cases hvs : v ∈ seen <;> simp [hv, hvs]

theorem firstOccur_eq_rec (l : List Nat) : firstOccur l = firstOccurRec l := by
  rw [firstOccur, firstOccurFrom_eq]
  congr 1
  apply List.filter_eq_self.mpr
  intro v _
  simp

theorem firstOccur_nil : firstOccur [] = [] := rfl

theorem mem_firstOccur (l : List Nat) (v : Nat) : v ∈ firstOccur l ↔ v ∈ l := by
  rw [firstOccur_eq_rec]
  exact mem_firstOccurRec l v

theorem nodup_firstOccur (l : List Nat) : (firstOccur l).Nodup := by
  rw [firstOccur_eq_rec]
  exact nodup_firstOccurRec l

theorem firstOccur_ne_nil (u : Nat) (rest : List Nat) : firstOccur (u :: rest) ≠ [] := by
  rw [firstOccur_eq_rec, firstOccurRec_cons]
  simp

/-- Removing other elements by a filter does not change the relative
order of two distinct surviving elements. -/
theorem indexOf_filter_lt (q : Nat → Bool) :
    ∀ (t : List Nat) (a b : Nat), a ≠ b → a ∈ t.filter q → b ∈ t.filter q →
      (t.filter q).indexOf a < (t.filter q).indexOf b → t.indexOf a < t.indexOf b := by
  intro t
  induction t with
  | nil => intro a b _ ha _ _; simp at ha
  | cons c t ih =>
    intro a b hab ha hb hlt
    by_cases hqc : q c
    · rw [List.filter_cons_of_pos hqc] at ha hb hlt
      by_cases hac : a = c
      · subst hac
        have hbne : b ≠ a := fun h => hab h.symm
        rw [List.indexOf_cons_self, List.indexOf_cons_ne t hbne.symm]
        omega
      · have hbc : b ≠ c := by
          intro h; subst h
          rw [List.indexOf_cons_self] at hlt
          omega
        rw [List.indexOf_cons_ne _ (fun h => hac h.symm),
          List.indexOf_cons_ne _ (fun h => hbc h.symm)] at hlt
        rw [List.indexOf_cons_ne t (fun h => hac h.symm),
          List.indexOf_cons_ne t (fun h => hbc h.symm)]
        have := ih a b hab (by simpa [List.mem_cons, hac] using
            (List.mem_cons.mp ha).resolve_left hac)
          (by simpa [List.mem_cons, hbc] using (List.mem_cons.mp hb).resolve_left hbc)
          (by omega)
        omega
    · rw [List.filter_cons_of_neg hqc] at ha hb hlt
      have hac : a ≠ c := by
        intro h; subst h
        have := (List.mem_filter.mp ha).2
        simp [hqc] at this
      have hbc : b ≠ c := by
        intro h; subst h
        have := (List.mem_filter.mp hb).2
        simp [hqc] at this
      rw [List.indexOf_cons_ne t (fun h => hac h.symm),
        List.indexOf_cons_ne t (fun h => hbc h.symm)]
      have := ih a b hab ha hb hlt
      omega

/-- The distinct values of a column, in the reference form, are ordered
by the position of their first appearance in the column. -/
theorem pairwise_indexOf_firstOccurRec :
    ∀ (l : List Nat), (firstOccurRec l).Pairwise (fun a b => l.indexOf a < l.indexOf b)
  | [] => by simp [firstOccurRec_nil]
  | u :: rest => by
    rw [firstOccurRec_cons]
    refine List.pairwise_cons.mpr ⟨?_, ?_⟩
    · intro b hb
      have hbmem : b ∈ rest.filter (fun x => x ≠ u) := (mem_firstOccurRec _ b).mp hb
      have hbne : b ≠ u := by
        have := (List.mem_filter.mp hbmem).2
        simpa using this
      rw [List.indexOf_cons_self, List.indexOf_cons_ne rest hbne.symm]
      omega
    · have hpw := pairwise_indexOf_firstOccurRec (rest.filter (fun x => x ≠ u))
      refine hpw.imp_of_mem ?_
      intro a b ha hb hlt
      have hamem : a ∈ rest.filter (fun x => x ≠ u) := (mem_firstOccurRec _ a).mp ha
      have hbmem : b ∈ rest.filter (fun x => x ≠ u) := (mem_firstOccurRec _ b).mp hb
      have hane : a ≠ u := by
        have := (List.mem_filter.mp hamem).2; simpa using this
      have hbne : b ≠ u := by
        have := (List.mem_filter.mp hbmem).2; simpa using this
      have hab : a ≠ b := by
        intro h; subst h; omega
      have := indexOf_filter_lt (fun x => x ≠ u) rest a b hab hamem hbmem hlt
      rw [List.indexOf_cons_ne rest hane.symm, List.indexOf_cons_ne rest hbne.symm]
      omega
termination_by l => l.length
decreasing_by exact Nat.lt_succ_of_le (List.length_filter_le _ _)

/-- The distinct values of a column, as returned by `firstOccur`, are
ordered by the position of their first appearance in the column. -/
theorem pairwise_indexOf_firstOccur (l : List Nat) :
    (firstOccur l).Pairwise (fun a b => l.indexOf a < l.indexOf b) := by
  rw [firstOccur_eq_rec]
  exact pairwise_indexOf_firstOccurRec l

/-! ## Lemmas about the re-keying loop -/

theorem rekeyCol_nil (k : Nat) (c : Nat) : rekeyCol k ([], c) = ([], c) := by
  simp [rekeyCol, firstOccur_nil]

theorem rekeyCol_of_ne_nil (k : Nat) (df : List Row) (c : Nat) (hdf : df ≠ []) :
    ∃ n, 1 ≤ n ∧
      rekeyCol k (df, c) = (df.map (fun row => row.setCol k (c + n - 1)), c + n) := by
  obtain ⟨r0, rest, rfl⟩ := List.exists_cons_of_ne_nil hdf
  refine ⟨(firstOccur ((r0 :: rest).map (fun row => row.col k))).length, ?_, ?_⟩
  · rw [List.map_cons]
    exact List.length_pos.mpr (firstOccur_ne_nil _ _)
  · rw [rekeyCol]
    have hne : (firstOccur ((r0 :: rest).map (fun row => row.col k))).isEmpty = false := by
      rw [List.map_cons]
      exact List.isEmpty_eq_false.mpr (firstOccur_ne_nil _ _)
    simp only [hne, Bool.false_eq_true, if_false]

theorem rekeyCol_fst_length (k : Nat) (df : List Row) (c : Nat) :
    (rekeyCol k (df, c)).1.length = df.length := by
  rw [rekeyCol]
  split <;> simp

theorem rekeyCol_snd_mono (k : Nat) (df : List Row) (c : Nat) :
    c ≤ (rekeyCol k (df, c)).2 := by
  rw [rekeyCol]
  split <;> simp

theorem rekeyCol_map_inv {β : Type} (h : Row → β) (k : Nat)
    (hh : ∀ row u, h (row.setCol k u) = h row) (df : List Row) (c : Nat) :
    (rekeyCol k (df, c)).1.map h = df.map h := by
  rw [rekeyCol]
  split
  · rfl
  · simp only [List.map_map]
    exact List.map_congr_left (fun row _ => hh row _)

theorem foldl_rekey_fst_length : ∀ (ks : List Nat) (df : List Row) (c : Nat),
    ((ks.foldl (fun p k => rekeyCol k p) (df, c)).1).length = df.length
  | [], _, _ => rfl
  | k :: ks, df, c => by
    rw [List.foldl_cons]
    have h1 := rekeyCol_fst_length k df c
    have h2 := foldl_rekey_fst_length ks (rekeyCol k (df, c)).1 (rekeyCol k (df, c)).2
    rw [← h1]
    exact h2

theorem foldl_rekey_snd_mono : ∀ (ks : List Nat) (df : List Row) (c : Nat),
    c ≤ ((ks.foldl (fun p k => rekeyCol k p) (df, c)).2)
  | [], _, _ => Nat.le_refl _
  | k :: ks, df, c => by
    rw [List.foldl_cons]
    exact Nat.le_trans (rekeyCol_snd_mono k df c)
      (foldl_rekey_snd_mono ks (rekeyCol k (df, c)).1 (rekeyCol k (df, c)).2)

theorem foldl_rekey_map_inv {β : Type} (h : Row → β) :
    ∀ (ks : List Nat) (df : List Row) (c : Nat),
      (∀ k ∈ ks, ∀ row u, h (row.setCol k u) = h row) →
      ((ks.foldl (fun p k => rekeyCol k p) (df, c)).1).map h = df.map h
  | [], _, _, _ => rfl
  | k :: ks, df, c, hh => by
    rw [List.foldl_cons]
    rw [foldl_rekey_map_inv h ks (rekeyCol k (df, c)).1 (rekeyCol k (df, c)).2
      (fun k2 hk2 => hh k2 (List.mem_cons_of_mem k hk2))]
    exact rekeyCol_map_inv h k (hh k (List.mem_cons_self k ks)) df c

theorem rekeyCols_fst_length (gen : Nat) (df : List Row) (c : Nat) :
    (rekeyCols gen df c).1.length = df.length :=
  foldl_rekey_fst_length _ df c

theorem rekeyCols_snd_mono (gen : Nat) (df : List Row) (c : Nat) :
    c ≤ (rekeyCols gen df c).2 :=
  foldl_rekey_snd_mono _ df c

theorem rekeyCols_map_file (gen : Nat) (df : List Row) (c : Nat) :
    (rekeyCols gen df c).1.map Row.file = df.map Row.file :=
  foldl_rekey_map_inv Row.file _ df c (fun k _ row u => file_setCol row k u)

theorem rekeyCols_map_removed (gen : Nat) (df : List Row) (c : Nat) :
    (rekeyCols gen df c).1.map Row.removed = df.map Row.removed :=
  foldl_rekey_map_inv Row.removed _ df c (fun k _ row u => removed_setCol row k u)

theorem rekeyCols_map_created (gen : Nat) (df : List Row) (c : Nat) :
    (rekeyCols gen df c).1.map Row.created = df.map Row.created :=
  foldl_rekey_map_inv Row.created _ df c (fun k _ row u => created_setCol row k u)

/-- The re-keying loop only touches columns below the SOP column. -/
theorem rekeyCols_map_sop (gen : Nat) (df : List Row) (c : Nat) :
    (rekeyCols gen df c).1.map Row.sopInstanceUID = df.map Row.sopInstanceUID := by
  refine foldl_rekey_map_inv Row.sopInstanceUID _ df c ?_
  intro k hk row u
  have hk3 : k < 3 := List.mem_range.mp (List.mem_of_mem_drop hk)
  exact sop_setCol row k u hk3

/-! ## Lemmas about `Record.data` and `Record.scope` -/

theorem data_subset (s : Db) (r : List Nat) : ∀ row ∈ Record.data s r, row ∈ s.rows := by
  intro row h
  unfold Record.data at h
  split at h
  · exact h
  · split at h
    · exact (List.mem_filter.mp h).1
    · exact (List.mem_filter.mp (List.mem_filter.mp h).1).1

theorem mem_data (s : Db) (r : List Nat) (hpath : s.pathIsNone = false) (row : Row) :
    row ∈ Record.data s r ↔
      row ∈ s.rows ∧ row.removed = false ∧
        (r = [] ∨ row.col (r.length - 1) = r.getLastD 0) := by
  unfold Record.data
  rw [hpath]
  simp only [Bool.false_eq_true, if_false]
  cases r with
  | nil => simp [List.mem_filter]
  | cons u rest =>
    simp only [List.isEmpty_cons, Bool.false_eq_true, if_false, List.mem_filter,
      List.mem_cons]
    constructor
    · rintro ⟨⟨h1, h2⟩, h3⟩
      simp at h2 h3
      exact ⟨h1, h2, Or.inr h3⟩
    · rintro ⟨h1, h2, h3⟩
      rcases h3 with h3 | h3
      · exact absurd h3 (by simp)
      · exact ⟨⟨h1, by simp [h2]⟩, by simpa using h3⟩

theorem scope_subset (s : Db) (r : List Nat) : ∀ row ∈ Record.scope s r, row ∈ s.rows := by
  intro row h
  unfold Record.scope at h
  split at h
  · exact h
  · exact (List.mem_filter.mp h).1

theorem mem_scope (s : Db) (r : List Nat) (row : Row) :
    row ∈ Record.scope s r ↔
      row ∈ s.rows ∧ (r.length = 0 ∨ row.col (r.length - 1) = r.getLastD 0) := by
  unfold Record.scope
  split
  · rename_i h
    simp [h]
  · rename_i h
    simp only [List.mem_filter, decide_eq_true_eq]
    constructor
    · rintro ⟨h1, h2⟩; exact ⟨h1, Or.inr h2⟩
    · rintro ⟨h1, h2⟩
      exact ⟨h1, h2.resolve_left h⟩

/-! ## Lemmas about `mergeNew` and `Record.merge_with` -/

theorem merge_with_rows (s : Db) (r obj : List Nat) :
    (Record.merge_with s r obj).rows = s.rows ++ mergeNew s r obj := rfl

theorem merge_with_disk (s : Db) (r obj : List Nat) :
    (Record.merge_with s r obj).disk = s.disk ++ (mergeNew s r obj).map (fun row =>
      ⟨row.file, row.patientID, row.studyInstanceUID, row.seriesInstanceUID,
        row.sopInstanceUID⟩) := rfl

theorem merge_with_path (s : Db) (r obj : List Nat) :
    (Record.merge_with s r obj).pathIsNone = s.pathIsNone := rfl

theorem length_mergeNew (s : Db) (r obj : List Nat) :
    (mergeNew s r obj).length = (Record.data s r).length := by
  unfold mergeNew
  rw [List.length_map, length_mapIdx, rekeyCols_fst_length, length_mapIdx]

theorem map_file_mergeNew (s : Db) (r obj : List Nat) :
    (mergeNew s r obj).map Row.file =
      (List.range (Record.data s r).length).map (fun i => s.fileCtr + i) := by
  unfold mergeNew
  rw [List.map_map]
  have h1 : (Row.file ∘ fun row => row.setColsFrom 0 obj) = Row.file := by
    funext row
    exact file_setColsFrom obj 0 row
  rw [h1]
  refine Eq.trans (map_mapIdx_invariant Row.file _ ?_ _) (Eq.trans (rekeyCols_map_file _ _ _)
    (map_mapIdx Row.file _ (fun i => s.fileCtr + i) ?_ _))
  · intro i row; rfl
  · intro i row; rfl

theorem map_sop_mergeNew (s : Db) (r obj : List Nat) (hobj : obj.length ≤ 3) :
    (mergeNew s r obj).map Row.sopInstanceUID =
      (List.range (Record.data s r).length).map (fun i => mergeCtr s r + i) := by
  unfold mergeNew
  rw [List.map_map]
  have h1 : (Row.sopInstanceUID ∘ fun row => row.setColsFrom 0 obj) = Row.sopInstanceUID := by
    funext row
    exact sop_setColsFrom obj 0 row (by simpa using hobj)
  rw [h1]
  refine Eq.trans (map_mapIdx Row.sopInstanceUID _ (fun i => mergeCtr s r + i) ?_ _) ?_
  · intro i row; rfl
  · rw [rekeyCols_fst_length, length_mapIdx]

theorem flags_mergeNew (s : Db) (r obj : List Nat) :
    ∀ row ∈ mergeNew s r obj, row.removed = false ∧ row.created = true := by
  intro row hrow
  unfold mergeNew at hrow
  obtain ⟨row3, hrow3, rfl⟩ := List.mem_map.mp hrow
  obtain ⟨j, hj, row0, hrow0, rfl⟩ := mem_mapIdx _ _ _ hrow3
  rw [removed_setColsFrom, created_setColsFrom]
  exact ⟨rfl, rfl⟩

theorem mergeCtr_ge (s : Db) (r : List Nat) : s.uidCtr ≤ mergeCtr s r :=
  rekeyCols_snd_mono _ _ _

theorem sop_mergeNew_mem (s : Db) (r obj : List Nat) (hobj : obj.length ≤ 3)
    (row : Row) (hrow : row ∈ mergeNew s r obj) :
    ∃ i, i < (Record.data s r).length ∧
      row.sopInstanceUID = mergeCtr s r + i := by
  have hmap := map_sop_mergeNew s r obj hobj
  have : row.sopInstanceUID ∈ (mergeNew s r obj).map Row.sopInstanceUID :=
    List.mem_map_of_mem Row.sopInstanceUID hrow
  rw [hmap] at this
  obtain ⟨i, hi, heq⟩ := List.mem_map.mp this
  exact ⟨i, List.mem_range.mp hi, by simpa using heq.symm⟩

theorem file_mergeNew_mem (s : Db) (r obj : List Nat)
    (row : Row) (hrow : row ∈ mergeNew s r obj) :
    ∃ i, i < (Record.data s r).length ∧ row.file = s.fileCtr + i := by
  have hmap := map_file_mergeNew s r obj
  have : row.file ∈ (mergeNew s r obj).map Row.file :=
    List.mem_map_of_mem Row.file hrow
  rw [hmap] at this
  obtain ⟨i, hi, heq⟩ := List.mem_map.mp this
  exact ⟨i, List.mem_range.mp hi, by simpa using heq.symm⟩

/-- Unfolding `Record.copy_to` at positive generation: the copy record
is the ancestor's UID tuple padded with fresh UIDs up to the source's
generation, and the merge runs with the UID counter advanced past the
padding. -/
theorem copy_to_pos (s : Db) (r dst : List Nat) (hr : r.length ≠ 0) :
    Record.copy_to s r dst =
      Record.merge_with { s with uidCtr := s.uidCtr + (r.length - dst.length) } r
        (dst ++ (List.range (r.length - dst.length)).map (fun i => s.uidCtr + i)) := by
  unfold Record.copy_to recordInit
  simp [hr]

theorem data_uidCtr (s : Db) (r : List Nat) (x : Nat) :
    Record.data { s with uidCtr := x } r = Record.data s r := rfl

/-! ## Lemmas about `Record.remove`, `Record.save`, `Record.restore` -/

theorem remove_disk (s : Db) (r : List Nat) : (Record.remove s r).disk = s.disk := by
  simp only [Record.remove]; split <;> rfl

theorem remove_uidCtr (s : Db) (r : List Nat) : (Record.remove s r).uidCtr = s.uidCtr := by
  simp only [Record.remove]; split <;> rfl

theorem remove_fileCtr (s : Db) (r : List Nat) : (Record.remove s r).fileCtr = s.fileCtr := by
  simp only [Record.remove]; split <;> rfl

theorem remove_path (s : Db) (r : List Nat) : (Record.remove s r).pathIsNone = s.pathIsNone := by
  simp only [Record.remove]; split <;> rfl

theorem set_removed_false_eq (row : Row) (h : row.removed = false) :
    ({ row with removed := false } : Row) = row := by
  cases row
  simp only at h
  simp [h]

theorem set_created_false_eq (row : Row) (h : row.created = false) :
    ({ row with created := false } : Row) = row := by
  cases row
  simp only at h
  simp [h]

theorem col_ite (c : Prop) [Decidable c] (row alt : Row) (j : Nat)
    (halt : alt.col j = row.col j) :
    (if c then alt else row).col j = row.col j := by
  split
  · exact halt
  · rfl

/-- When every scoped row is not staged `removed`, the record's
`data()` row set coincides with the save/restore scope. -/
theorem data_eq_scope_of_clean (s : Db) (r : List Nat)
    (hpath : s.pathIsNone = false)
    (hclean : ∀ row ∈ Record.scope s r, row.removed = false) :
    Record.data s r = Record.scope s r := by
  have hclean2 : ∀ row ∈ s.rows,
      (r.length = 0 ∨ row.col (r.length - 1) = r.getLastD 0) → row.removed = false :=
    fun row h1 h2 => hclean row ((mem_scope s r row).mpr ⟨h1, h2⟩)
  unfold Record.data Record.scope
  rw [hpath]
  simp only [Bool.false_eq_true, if_false]
  cases r with
  | nil =>
    rw [if_pos (by rfl), if_pos (by rfl)]
    apply List.filter_eq_self.mpr
    intro row hrow
    simp [hclean2 row hrow (Or.inl rfl)]
  | cons u rest =>
    rw [if_neg (by simp), if_neg (by simp)]
    rw [List.filter_filter]
    apply List.filter_congr
    intro row hrow
    by_cases hc : row.col ((u :: rest).length - 1) = (u :: rest).getLastD 0
    · have hrm : row.removed = false := hclean2 row hrow (Or.inr hc)
      rw [decide_eq_true hc, hrm, Bool.true_and]
      rfl
    · rw [decide_eq_false hc, Bool.false_and]

/-- With unique file names, a row's file occurs among the files of a
filtered sublist of the scope exactly when the row itself is in that
filtered sublist. -/
theorem file_mem_scope_filter (s : Db) (r : List Nat)
    (hnodup : (s.rows.map Row.file).Nodup) (p : Row → Bool)
    (row : Row) (hrow : row ∈ s.rows) :
    (row.file ∈ ((Record.scope s r).filter p).map (fun row => row.file) ↔
      row ∈ Record.scope s r ∧ p row = true) := by
  constructor
  · intro hmem
    obtain ⟨q, hq, hfile⟩ := List.mem_map.mp hmem
    have hq1 := List.mem_filter.mp hq
    have hq2 : q = row := List.inj_on_of_nodup_map hnodup (scope_subset s r q hq1.1) hrow hfile
    exact hq2 ▸ ⟨hq1.1, hq1.2⟩
  · intro h
    exact List.mem_map.mpr ⟨row, List.mem_filter.mpr ⟨h.1, h.2⟩, rfl⟩

theorem save_rows (s : Db) (r : List Nat) :
    (Record.save s r).rows = (s.rows.map (fun row =>
      if row.file ∈ ((Record.scope s r).filter (fun row => row.created)).map
          (fun row => row.file) then { row with created := false } else row)).filter
      (fun row => row.file ∉ ((Record.scope s r).filter (fun row => row.removed)).map
          (fun row => row.file)) := rfl

theorem save_disk (s : Db) (r : List Nat) :
    (Record.save s r).disk = s.disk.filter
      (fun f => f.name ∉ ((Record.scope s r).filter (fun row => row.removed)).map
          (fun row => row.file)) := rfl

theorem restore_rows (s : Db) (r : List Nat) :
    (Record.restore s r).rows = (s.rows.map (fun row =>
      if row.file ∈ ((Record.scope s r).filter (fun row => row.removed)).map
          (fun row => row.file) then { row with removed := false } else row)).filter
      (fun row => row.file ∉ ((Record.scope s r).filter (fun row => row.created)).map
          (fun row => row.file)) := rfl

theorem restore_disk (s : Db) (r : List Nat) :
    (Record.restore s r).disk = s.disk.filter
      (fun f => f.name ∉ ((Record.scope s r).filter (fun row => row.created)).map
          (fun row => row.file)) := rfl

theorem getD_pad (dst : List Nat) (c len j : Nat) (h1 : dst.length ≤ j) (h2 : j < len) :
    (dst ++ (List.range (len - dst.length)).map (fun i => c + i)).getD j 0
      = c + (j - dst.length) := by
  rw [List.getD_append_right _ _ _ _ h1, List.getD_eq_getElem?_getD, List.getElem?_map,
    List.getElem?_range (by omega)]
  rfl

/-- Every merged row carries, in the columns written from the
destination record's UID tuple, exactly that tuple's entries. -/
theorem col_mergeNew (s : Db) (r obj : List Nat) (hobj4 : obj.length ≤ 4)
    (row : Row) (hrow : row ∈ mergeNew s r obj) (j : Nat) (hj : j < obj.length) :
    row.col j = obj.getD j 0 := by
  unfold mergeNew at hrow
  obtain ⟨row3, hrow3, rfl⟩ := List.mem_map.mp hrow
  exact setColsFrom_col_in obj 0 row3 j (by simpa using hobj4) (Nat.zero_le j)
    (by simpa using hj)

/-- When no merged row matches a record's key column, the merge does not
change that record's `data()` row set. -/
theorem data_merge_of_no_match (s : Db) (r obj r2 : List Nat)
    (hpath : s.pathIsNone = false) (hr2 : r2 ≠ [])
    (hno : ∀ row ∈ mergeNew s r obj, ¬(row.col (r2.length - 1) = r2.getLastD 0)) :
    Record.data (Record.merge_with s r obj) r2 = Record.data s r2 := by
  unfold Record.data
  rw [merge_with_path, hpath]
  simp only [Bool.false_eq_true, if_false]
  rw [if_neg (fun h => hr2 (List.isEmpty_iff.mp h)),
    if_neg (fun h => hr2 (List.isEmpty_iff.mp h))]
  rw [merge_with_rows, List.filter_append, List.filter_append]
  have hnil : ((mergeNew s r obj).filter (fun row => !row.removed)).filter
      (fun row => row.col (r2.length - 1) = r2.getLastD 0) = [] := by
    rw [List.filter_eq_nil_iff]
    intro row hrow
    simp only [decide_eq_true_eq]
    exact hno row (List.mem_filter.mp hrow).1
  rw [hnil, List.append_nil]

/-- The SOP/flag assignment of the merge leaves the lower identifier
columns unchanged. -/
theorem col_sopmap (row : Row) (c i : Nat) (j : Nat) (hj : j < 3) :
    ({ row with sopInstanceUID := c + i, removed := false, created := true } : Row).col j
      = row.col j := by
  rcases j with _ | _ | _ | j
  · rfl
  · rfl
  · rfl
  · omega

/-- After the re-keying loop every row holds one shared value, at least
the starting counter, in each re-keyed column. -/
theorem rekey_shared (G : Nat) (df : List Row) (c j : Nat)
    (hG1 : 1 ≤ G) (hGj : G ≤ j) (hj3 : j < 3) :
    ∃ v, c ≤ v ∧ ∀ row ∈ (rekeyCols G df c).1, row.col j = v := by
  by_cases hdf : df = []
  · subst hdf
    refine ⟨c, Nat.le_refl c, ?_⟩
    intro row hrow
    have h0 : (rekeyCols G [] c).1.length = 0 := by
      rw [rekeyCols_fst_length]
      rfl
    rw [List.length_eq_zero] at h0
    rw [h0] at hrow
    simp at hrow
  · have hG : G = 1 ∨ G = 2 := by omega
    rcases hG with hG | hG
    · subst hG
      have hunfold : rekeyCols 1 df c = rekeyCol 2 (rekeyCol 1 (df, c)) := rfl
      obtain ⟨n1, hn1, heq1⟩ := rekeyCol_of_ne_nil 1 df c hdf
      have hdf2ne : df.map (fun row => row.setCol 1 (c + n1 - 1)) ≠ [] := by
        simpa using hdf
      obtain ⟨n2, hn2, heq2⟩ := rekeyCol_of_ne_nil 2 _ (c + n1) hdf2ne
      rcases (by omega : j = 1 ∨ j = 2) with hj | hj
      · subst hj
        refine ⟨c + n1 - 1, by omega, ?_⟩
        intro row hrow
        rw [hunfold, heq1, heq2] at hrow
        obtain ⟨row2, hrow2, rfl⟩ := List.mem_map.mp hrow
        obtain ⟨row3, hrow3, rfl⟩ := List.mem_map.mp hrow2
        rw [col_setCol_of_ne _ 2 _ 1 (by omega) (by omega), col_setCol_self]
      · subst hj
        refine ⟨c + n1 + n2 - 1, by omega, ?_⟩
        intro row hrow
        rw [hunfold, heq1, heq2] at hrow
        obtain ⟨row2, hrow2, rfl⟩ := List.mem_map.mp hrow
        rw [col_setCol_self]
    · subst hG
      have hj2 : j = 2 := by omega
      subst hj2
      have hunfold : rekeyCols 2 df c = rekeyCol 2 (df, c) := rfl
      obtain ⟨n2, hn2, heq2⟩ := rekeyCol_of_ne_nil 2 df c hdf
      refine ⟨c + n2 - 1, by omega, ?_⟩
      intro row hrow
      rw [hunfold, heq2] at hrow
      obtain ⟨row2, hrow2, rfl⟩ := List.mem_map.mp hrow
      rw [col_setCol_self]

/-- In the columns above the destination tuple, every merged row agrees
with the corresponding re-keyed row. -/
theorem col_mergeNew_high (s : Db) (r obj : List Nat) (hobj : obj.length = r.length)
    (j : Nat) (hGj : r.length ≤ j) (hj3 : j < 3)
    (row : Row) (hrow : row ∈ mergeNew s r obj) :
    ∃ row2 ∈ (rekeyCols r.length
        (mapIdx (fun i row => { row with file := s.fileCtr + i }) (Record.data s r))
        s.uidCtr).1, row.col j = row2.col j := by
  unfold mergeNew at hrow
  obtain ⟨row3, hrow3, rfl⟩ := List.mem_map.mp hrow
  obtain ⟨i, hi, row2, hrow2, rfl⟩ := mem_mapIdx _ _ _ hrow3
  refine ⟨row2, hrow2, ?_⟩
  rw [setColsFrom_col_of_ge obj 0 _ j (by omega) (by omega) (by omega)]
  exact col_sopmap row2 _ i j hj3

/-! ## Invariant preservation lemmas -/

theorem merge_with_uidCtr (s : Db) (r obj : List Nat) :
    (Record.merge_with s r obj).uidCtr = mergeCtr s r + (Record.data s r).length := rfl

theorem merge_with_fileCtr (s : Db) (r obj : List Nat) :
    (Record.merge_with s r obj).fileCtr = s.fileCtr + (Record.data s r).length := rfl

theorem save_fileCtr (s : Db) (r : List Nat) :
    (Record.save s r).fileCtr = s.fileCtr := rfl

theorem restore_fileCtr (s : Db) (r : List Nat) :
    (Record.restore s r).fileCtr = s.fileCtr := rfl

theorem length_le_one_of_nodup_const (l : List Row) (f : Row → Nat) (v : Nat)
    (hnd : (l.map f).Nodup) (hconst : ∀ x ∈ l, f x = v) : l.length ≤ 1 := by
  match l with
  | [] => simp
  | [a] => simp
  | a :: b :: t =>
    exfalso
    rw [List.map_cons, List.map_cons, List.nodup_cons] at hnd
    refine hnd.1 ?_
    rw [hconst a (by simp), ← hconst b (by simp)]
    exact List.mem_cons_self _ _

theorem data_sublist (s : Db) (r : List Nat) : (Record.data s r).Sublist s.rows := by
  unfold Record.data
  split
  · exact List.Sublist.refl _
  · split
    · exact List.filter_sublist _
    · exact List.Sublist.trans (List.filter_sublist _) (List.filter_sublist _)

theorem flagsOK_merge (s : Db) (r obj : List Nat) (h : FlagsOK s) :
    FlagsOK (Record.merge_with s r obj) := by
  intro row hrow
  rw [merge_with_rows] at hrow
  rcases List.mem_append.mp hrow with hm | hm
  · exact h row hm
  · have hrm := (flags_mergeNew s r obj row hm).1
    rintro ⟨_, hrm2⟩
    rw [hrm] at hrm2
    exact absurd hrm2 (by simp)

theorem filesOK_merge (s : Db) (r obj : List Nat) (h : FilesOK s) :
    FilesOK (Record.merge_with s r obj) := by
  obtain ⟨hnd, hb⟩ := h
  constructor
  · rw [merge_with_rows, List.map_append, map_file_mergeNew]
    rw [List.nodup_append]
    refine ⟨hnd, List.Nodup.map (fun a b hab => Nat.add_left_cancel hab)
      (List.nodup_range _), ?_⟩
    intro x hx hy
    obtain ⟨row, hrow, rfl⟩ := List.mem_map.mp hx
    obtain ⟨i, hi, heq⟩ := List.mem_map.mp hy
    have hlt := hb row hrow
    have : row.file = s.fileCtr + i := by simpa using heq.symm
    omega
  · intro row hrow
    rw [merge_with_fileCtr]
    rw [merge_with_rows] at hrow
    rcases List.mem_append.mp hrow with hm | hm
    · have := hb row hm
      omega
    · obtain ⟨i, hi, hfi⟩ := file_mergeNew_mem s r obj row hm
      omega

theorem flagsOK_copy (s : Db) (r dst : List Nat) (h : FlagsOK s) :
    FlagsOK (Record.copy_to s r dst) := by
  by_cases hr : r.length = 0
  · unfold Record.copy_to
    rw [if_pos hr]
    exact h
  · rw [copy_to_pos s r dst hr]
    exact flagsOK_merge _ r _ (fun row hrow => h row hrow)

theorem filesOK_copy (s : Db) (r dst : List Nat) (h : FilesOK s) :
    FilesOK (Record.copy_to s r dst) := by
  by_cases hr : r.length = 0
  · unfold Record.copy_to
    rw [if_pos hr]
    exact h
  · rw [copy_to_pos s r dst hr]
    exact filesOK_merge _ r _ ⟨h.1, fun row hrow => h.2 row hrow⟩

theorem flagsOK_remove (s : Db) (r : List Nat) (h : FlagsOK s)
    (hnodup : (s.rows.map Row.file).Nodup)
    (hguard : ∀ row ∈ Record.data s r, row.created = false) :
    FlagsOK (Record.remove s r) := by
  intro row' hrow'
  simp only [Record.remove] at hrow'
  split at hrow'
  · exact h row' hrow'
  · obtain ⟨row, hrow, rfl⟩ := List.mem_map.mp hrow'
    by_cases hc : ((Record.data s r).any (fun q => q.file = row.file)) = true
    · rw [if_pos hc]
      obtain ⟨q, hq, hfq⟩ := List.any_eq_true.mp hc
      have hqe : q = row := List.inj_on_of_nodup_map hnodup (data_subset s r q hq) hrow
        (by simpa using hfq)
      have hcr : row.created = false := hguard row (hqe ▸ hq)
      rintro ⟨hcr2, _⟩
      rw [hcr] at hcr2
      exact absurd hcr2 (by simp)
    · rw [if_neg hc]
      exact h row hrow

theorem filesOK_remove (s : Db) (r : List Nat) (h : FilesOK s) :
    FilesOK (Record.remove s r) := by
  obtain ⟨hnd, hb⟩ := h
  constructor
  · have hmap : (Record.remove s r).rows.map Row.file = s.rows.map Row.file := by
      simp only [Record.remove]
      split
      · rfl
      · rw [List.map_map]
        apply List.map_congr_left
        intro row _
        show Row.file (if _ = true then _ else row) = row.file
        split <;> rfl
    rw [hmap]
    exact hnd
  · intro row hrow
    rw [remove_fileCtr]
    simp only [Record.remove] at hrow
    split at hrow
    · exact hb row hrow
    · obtain ⟨row0, hrow0, rfl⟩ := List.mem_map.mp hrow
      have := hb row0 hrow0
      split <;> simpa using this

theorem flagsOK_save (s : Db) (r : List Nat) (h : FlagsOK s) :
    FlagsOK (Record.save s r) := by
  intro row' hrow'
  rw [save_rows] at hrow'
  obtain ⟨row, hrow, heq⟩ := List.mem_map.mp (List.mem_filter.mp hrow').1
  by_cases hc : row.file ∈ ((Record.scope s r).filter (fun row => row.created)).map
      (fun row => row.file)
  · rw [if_pos hc] at heq
    rw [← heq]
    rintro ⟨hcr, _⟩
    simpa using hcr
  · rw [if_neg hc] at heq
    rw [← heq]
    exact h row hrow

theorem filesOK_save (s : Db) (r : List Nat) (h : FilesOK s) :
    FilesOK (Record.save s r) := by
  obtain ⟨hnd, hb⟩ := h
  have hmap : (s.rows.map (fun row =>
      if row.file ∈ ((Record.scope s r).filter (fun row => row.created)).map
          (fun row => row.file) then { row with created := false } else row)).map Row.file
      = s.rows.map Row.file := by
    rw [List.map_map]
    apply List.map_congr_left
    intro row _
    simp only [Function.comp_apply]
    split <;> rfl
  constructor
  · rw [save_rows]
    have hsub := (List.filter_sublist (l := s.rows.map (fun row =>
      if row.file ∈ ((Record.scope s r).filter (fun row => row.created)).map
          (fun row => row.file) then { row with created := false } else row))
      (p := (fun row => row.file ∉ ((Record.scope s r).filter
        (fun row => row.removed)).map (fun row => row.file)))).map Row.file
    rw [hmap] at hsub
    exact hsub.nodup hnd
  · intro row' hrow'
    rw [save_fileCtr]
    rw [save_rows] at hrow'
    obtain ⟨row, hrow, heq⟩ := List.mem_map.mp (List.mem_filter.mp hrow').1
    have := hb row hrow
    rw [← heq]
    split <;> simpa using this

theorem flagsOK_restore (s : Db) (r : List Nat) (h : FlagsOK s) :
    FlagsOK (Record.restore s r) := by
  intro row' hrow'
  rw [restore_rows] at hrow'
  obtain ⟨row, hrow, heq⟩ := List.mem_map.mp (List.mem_filter.mp hrow').1
  by_cases hc : row.file ∈ ((Record.scope s r).filter (fun row => row.removed)).map
      (fun row => row.file)
  · rw [if_pos hc] at heq
    rw [← heq]
    rintro ⟨_, hrm⟩
    simpa using hrm
  · rw [if_neg hc] at heq
    rw [← heq]
    exact h row hrow

theorem filesOK_restore (s : Db) (r : List Nat) (h : FilesOK s) :
    FilesOK (Record.restore s r) := by
  obtain ⟨hnd, hb⟩ := h
  have hmap : (s.rows.map (fun row =>
      if row.file ∈ ((Record.scope s r).filter (fun row => row.removed)).map
          (fun row => row.file) then { row with removed := false } else row)).map Row.file
      = s.rows.map Row.file := by
    rw [List.map_map]
    apply List.map_congr_left
    intro row _
    simp only [Function.comp_apply]
    split <;> rfl
  constructor
  · rw [restore_rows]
    have hsub := (List.filter_sublist (l := s.rows.map (fun row =>
      if row.file ∈ ((Record.scope s r).filter (fun row => row.removed)).map
          (fun row => row.file) then { row with removed := false } else row))
      (p := (fun row => row.file ∉ ((Record.scope s r).filter
        (fun row => row.created)).map (fun row => row.file)))).map Row.file
    rw [hmap] at hsub
    exact hsub.nodup hnd
  · intro row' hrow'
    rw [restore_fileCtr]
    rw [restore_rows] at hrow'
    obtain ⟨row, hrow, heq⟩ := List.mem_map.mp (List.mem_filter.mp hrow').1
    have := hb row hrow
    rw [← heq]
    split <;> simpa using this

theorem flagsOK_newInstance (s : Db) (p : List Nat) (h : FlagsOK s) :
    FlagsOK (newInstance s p) := by
  intro row hrow
  simp only [newInstance, recordInit] at hrow
  rcases List.mem_append.mp hrow with hm | hm
  · exact h row hm
  · rw [List.mem_singleton] at hm
    subst hm
    rintro ⟨_, hrm⟩
    simpa using hrm

theorem filesOK_newInstance (s : Db) (p : List Nat) (h : FilesOK s) :
    FilesOK (newInstance s p) := by
  obtain ⟨hnd, hb⟩ := h
  constructor
  · simp only [newInstance, recordInit, List.map_append]
    rw [List.nodup_append]
    refine ⟨hnd, by simp, ?_⟩
    intro x hx hy
    obtain ⟨row, hrow, rfl⟩ := List.mem_map.mp hx
    have := hb row hrow
    simp only [List.map_cons, List.map_nil, List.mem_singleton] at hy
    omega
  · intro row hrow
    simp only [newInstance, recordInit] at hrow ⊢
    rcases List.mem_append.mp hrow with hm | hm
    · have := hb row hm
      omega
    · rw [List.mem_singleton] at hm
      subst hm
      simp

theorem sop_mergeNew_obj4 (s : Db) (r obj : List Nat) (hobj : obj.length = 4)
    (row : Row) (hrow : row ∈ mergeNew s r obj) :
    row.sopInstanceUID = obj.getD 3 0 := by
  have := col_mergeNew s r obj (by omega) row hrow 3 (by omega)
  rw [col_three] at this
  exact this

/-- On a disk-backed database with unique SOPInstanceUIDs, a
generation-4 record has at most one `data()` row. -/
theorem data_len_le_one (s : Db) (r : List Nat) (hpath : s.pathIsNone = false)
    (hr4 : r.length = 4) (hnd : (s.rows.map Row.sopInstanceUID).Nodup) :
    (Record.data s r).length ≤ 1 := by
  have hsubl := data_sublist s r
  have hndd : ((Record.data s r).map Row.sopInstanceUID).Nodup :=
    (hsubl.map Row.sopInstanceUID).nodup hnd
  refine length_le_one_of_nodup_const _ Row.sopInstanceUID (r.getLastD 0) hndd ?_
  intro row hrow
  have hmem := (mem_data s r hpath row).mp hrow
  rcases hmem.2.2 with h | h
  · rw [h] at hr4
    simp at hr4
  · rw [hr4] at h
    exact h

theorem sopOK_bump (s : Db) (x : Nat) (hx : s.uidCtr ≤ x) (h : SopOK s) :
    SopOK { s with uidCtr := x } := by
  obtain ⟨hp, hb, hnd⟩ := h
  refine ⟨hp, ?_, hnd⟩
  intro row hrow
  have := hb row hrow
  show row.sopInstanceUID < x
  omega

theorem sopOK_merge (s : Db) (r obj : List Nat) (h : SopOK s) (hobj : obj.length ≤ 3) :
    SopOK (Record.merge_with s r obj) := by
  obtain ⟨hp, hb, hnd⟩ := h
  have hge : s.uidCtr ≤ mergeCtr s r := mergeCtr_ge s r
  refine ⟨?_, ?_, ?_⟩
  · rw [merge_with_path]
    exact hp
  · intro row hrow
    rw [merge_with_uidCtr]
    rw [merge_with_rows] at hrow
    rcases List.mem_append.mp hrow with hm | hm
    · have := hb row hm
      omega
    · obtain ⟨i, hi, hsi⟩ := sop_mergeNew_mem s r obj hobj row hm
      omega
  · rw [merge_with_rows, List.map_append, map_sop_mergeNew s r obj hobj]
    rw [List.nodup_append]
    refine ⟨hnd, List.Nodup.map (fun a b hab => Nat.add_left_cancel hab)
      (List.nodup_range _), ?_⟩
    intro x hx hy
    obtain ⟨row, hrow, rfl⟩ := List.mem_map.mp hx
    obtain ⟨i, hi, heq⟩ := List.mem_map.mp hy
    have hlt := hb row hrow
    have : row.sopInstanceUID = mergeCtr s r + i := by simpa using heq.symm
    omega

theorem sopOK_copy (s : Db) (r dst : List Nat) (h : SopOK s)
    (h1 : 1 ≤ r.length) (h4 : r.length ≤ 4) (hA : dst.length < r.length) :
    SopOK (Record.copy_to s r dst) := by
  have hcopy := copy_to_pos s r dst (by omega)
  have hobjlen : (dst ++ (List.range (r.length - dst.length)).map
      (fun i => s.uidCtr + i)).length = r.length := by
    simp only [List.length_append, List.length_map, List.length_range]
    omega
  have hs1 : SopOK { s with uidCtr := s.uidCtr + (r.length - dst.length) } :=
    sopOK_bump s _ (by omega) h
  rw [hcopy]
  by_cases h3 : r.length ≤ 3
  · exact sopOK_merge _ r _ hs1 (by rw [hobjlen]; omega)
  · -- generation-4 source: at most one data row, whose copy receives
    -- the SOP UID freshly generated by the copy record's constructor
    have hG4 : r.length = 4 := by omega
    obtain ⟨hp, hb, hnd⟩ := h
    have hlen : (Record.data { s with uidCtr := s.uidCtr + (r.length - dst.length) } r).length
        ≤ 1 := data_len_le_one _ r hp hG4 hnd
    have hobj3 : (dst ++ (List.range (r.length - dst.length)).map
        (fun i => s.uidCtr + i)).getD 3 0 = s.uidCtr + (3 - dst.length) := by
      have := getD_pad dst s.uidCtr r.length 3 (by omega) (by omega)
      rw [hG4] at this ⊢
      exact this
    have hsopnew : ∀ row ∈ mergeNew { s with uidCtr := s.uidCtr + (r.length - dst.length) } r
        (dst ++ (List.range (r.length - dst.length)).map (fun i => s.uidCtr + i)),
        row.sopInstanceUID = s.uidCtr + (3 - dst.length) := by
      intro row hrow
      rw [sop_mergeNew_obj4 _ r _ (by rw [hobjlen]; omega) row hrow]
      exact hobj3
    have hge : s.uidCtr + (r.length - dst.length) ≤ mergeCtr
        { s with uidCtr := s.uidCtr + (r.length - dst.length) } r :=
      mergeCtr_ge { s with uidCtr := s.uidCtr + (r.length - dst.length) } r
    refine ⟨?_, ?_, ?_⟩
    · rw [merge_with_path]
      exact hp
    · intro row hrow
      rw [merge_with_uidCtr]
      rw [merge_with_rows] at hrow
      rcases List.mem_append.mp hrow with hm | hm
      · have := hb row hm
        omega
      · rw [hsopnew row hm]
        omega
    · rw [merge_with_rows, List.map_append, List.nodup_append]
      have hlen2 : (mergeNew { s with uidCtr := s.uidCtr + (r.length - dst.length) } r
          (dst ++ (List.range (r.length - dst.length)).map (fun i => s.uidCtr + i))).length
          ≤ 1 := by
        rw [length_mergeNew]
        exact hlen
      refine ⟨hnd, ?_, ?_⟩
      · match hm : mergeNew { s with uidCtr := s.uidCtr + (r.length - dst.length) } r
            (dst ++ (List.range (r.length - dst.length)).map (fun i => s.uidCtr + i)) with
        | [] => simp
        | [a] => simp
        | a :: b :: t =>
          rw [hm] at hlen2
          simp at hlen2
      · intro x hx hy
        obtain ⟨row, hrow, rfl⟩ := List.mem_map.mp hx
        obtain ⟨row2, hrow2, heq⟩ := List.mem_map.mp hy
        have h1x := hb row hrow
        have h2x := hsopnew row2 hrow2
        rw [heq] at h2x
        omega

/-- Turning each distinct column value into the record built from its
first matching row, then reading the record's last identifier back,
recovers the value list. -/
theorem filterMap_find_map_lastId (d : List Row) (G : Nat) :
    ∀ L : List Nat, (∀ v ∈ L, ∃ row ∈ d, row.col G = v) →
      ((L.filterMap (fun v => (d.find? (fun row => row.col G = v)).map
          (fun row0 => (List.range (G + 1)).map row0.col))).map
        (fun c => c.getLastD 0)) = L
  | [], _ => rfl
  | v :: rest, hex => by
    obtain ⟨row, hrow, hcol⟩ := hex v (by simp)
    cases hfind : d.find? (fun row => row.col G = v) with
    | none =>
      rw [List.find?_eq_none] at hfind
      exact absurd (by simpa using hcol) (hfind row hrow)
    | some row0 =>
      rw [List.filterMap_cons_some (b := (List.range (G + 1)).map row0.col)
        (by rw [hfind]; rfl)]
      rw [List.map_cons]
      have hv : row0.col G = v := by
        have := List.find?_some hfind
        simpa using this
      rw [filterMap_find_map_lastId d G rest (fun w hw => hex w (by simp [hw]))]
      congr 1
      rw [List.range_succ, List.map_append, List.map_cons, List.map_nil,
        List.getLastD_concat]
      exact hv

/-! ## Claim theorems -/

/-- C9: a `set_array` call in which the product of the array's
non-pixel dimensions differs from the number of header datasets
provided raises the shape-mismatch error, and the state it returns is
exactly the input state: no index row and no file on disk is modified
before the error is raised. -/
theorem C9_set_array_shape_mismatch (s : Db) (r : List Nat)
    (arrayShape datasetShape : List Nat) (pixelsFirst : Bool)
    (h : ((if pixelsFirst then arrayShape.drop 2 ++ arrayShape.take 2
        else arrayShape).dropLast.dropLast).prod ≠ datasetShape.prod) :
    Record.set_array s r arrayShape datasetShape pixelsFirst
      = (s, some "Error in set_array(): array and dataset do not match") := by
  unfold Record.set_array
  rw [if_pos h]

/-- Witness for C9: a 2-slice array against 3 header datasets. -/
theorem C9_witness :
    (((if (false : Bool) then ([2, 5, 5] : List Nat).drop 2 ++ [2, 5, 5].take 2
        else [2, 5, 5]).dropLast.dropLast).prod ≠ ([3] : List Nat).prod)
    ∧ Record.set_array ⟨[], [], 0, 0, false⟩ [] [2, 5, 5] [3] false
        = (⟨[], [], 0, 0, false⟩, some "Error in set_array(): array and dataset do not match") :=
  ⟨by decide, C9_set_array_shape_mismatch ⟨[], [], 0, 0, false⟩ [] [2, 5, 5] [3] false
    (by decide)⟩

/-- C5 counterexample: `remove()` on a record whose only index row is
staged `created = True` does not drop the row; the row is still in the
index afterwards, now flagged `removed = True` in addition to
`created = True`. -/
theorem C5_counterexample :
    ∃ row ∈ (Record.remove
        ⟨[⟨0, 1, 10, 20, 30, false, true⟩], [⟨0, 1, 10, 20, 30⟩], 100, 1, false⟩
        [1, 10, 20]).rows,
      row.created = true ∧ row.removed = true := by
  decide

/-- C5 (amended): `remove()` sets `removed = True` on every row of the
record's `data()` row set regardless of the `created` flag; rows staged
`created = True` are retained (never dropped) and end up carrying both
flags.  No row is dropped from the index, rows outside `data()` are
untouched, and no file on disk is deleted. -/
theorem C5_remove_marks_including_created (s : Db) (r : List Nat)
    (hnodup : (s.rows.map Row.file).Nodup) :
    (Record.remove s r).rows.length = s.rows.length
    ∧ (Record.remove s r).disk = s.disk
    ∧ ∀ row ∈ s.rows,
        (row ∈ Record.data s r → { row with removed := true } ∈ (Record.remove s r).rows)
        ∧ (row ∉ Record.data s r → row ∈ (Record.remove s r).rows) := by
  unfold Record.remove
  by_cases hd : (Record.data s r).isEmpty = true
  · rw [if_pos hd]
    refine ⟨rfl, rfl, fun row hrow => ⟨fun hmem => ?_, fun _ => hrow⟩⟩
    rw [List.isEmpty_iff.mp hd] at hmem
    simp at hmem
  · rw [if_neg hd]
    refine ⟨List.length_map _ _, rfl, fun row hrow => ⟨fun hmem => ?_, fun hmem => ?_⟩⟩
    · have hcond : ((Record.data s r).any (fun q => q.file = row.file)) = true := by
        rw [List.any_eq_true]
        exact ⟨row, hmem, by simp⟩
      have := List.mem_map_of_mem
        (fun row => if (Record.data s r).any (fun q => q.file = row.file) = true
          then { row with removed := true } else row) hrow
      simpa [hcond] using this
    · have hcond : ((Record.data s r).any (fun q => q.file = row.file)) = false := by
        rw [Bool.eq_false_iff]
        intro hany
        obtain ⟨q, hq, hfile⟩ := List.any_eq_true.mp hany
        have hq2 : q ∈ s.rows := data_subset s r q hq
        have : q = row :=
          List.inj_on_of_nodup_map hnodup hq2 hrow (by simpa using hfile)
        exact hmem (this ▸ hq)
      have := List.mem_map_of_mem
        (fun row => if (Record.data s r).any (fun q => q.file = row.file) = true
          then { row with removed := true } else row) hrow
      simpa [hcond] using this

/-- Witness for C5 (amended) on a two-row database. -/
theorem C5_witness :
    ((([⟨0, 1, 10, 20, 30, false, true⟩, ⟨1, 1, 10, 21, 31, false, false⟩] : List Row).map
        Row.file).Nodup)
    ∧ ((Record.remove ⟨[⟨0, 1, 10, 20, 30, false, true⟩, ⟨1, 1, 10, 21, 31, false, false⟩],
          [], 100, 2, false⟩ [1, 10, 20]).rows.length
        = (⟨[⟨0, 1, 10, 20, 30, false, true⟩, ⟨1, 1, 10, 21, 31, false, false⟩],
          [], 100, 2, false⟩ : Db).rows.length
      ∧ (Record.remove ⟨[⟨0, 1, 10, 20, 30, false, true⟩, ⟨1, 1, 10, 21, 31, false, false⟩],
          [], 100, 2, false⟩ [1, 10, 20]).disk
        = (⟨[⟨0, 1, 10, 20, 30, false, true⟩, ⟨1, 1, 10, 21, 31, false, false⟩],
          [], 100, 2, false⟩ : Db).disk
      ∧ ∀ row ∈ (⟨[⟨0, 1, 10, 20, 30, false, true⟩, ⟨1, 1, 10, 21, 31, false, false⟩],
          [], 100, 2, false⟩ : Db).rows,
          (row ∈ Record.data ⟨[⟨0, 1, 10, 20, 30, false, true⟩,
              ⟨1, 1, 10, 21, 31, false, false⟩], [], 100, 2, false⟩ [1, 10, 20] →
            { row with removed := true } ∈ (Record.remove ⟨[⟨0, 1, 10, 20, 30, false, true⟩,
              ⟨1, 1, 10, 21, 31, false, false⟩], [], 100, 2, false⟩ [1, 10, 20]).rows)
          ∧ (row ∉ Record.data ⟨[⟨0, 1, 10, 20, 30, false, true⟩,
              ⟨1, 1, 10, 21, 31, false, false⟩], [], 100, 2, false⟩ [1, 10, 20] →
            row ∈ (Record.remove ⟨[⟨0, 1, 10, 20, 30, false, true⟩,
              ⟨1, 1, 10, 21, 31, false, false⟩], [], 100, 2, false⟩ [1, 10, 20]).rows)) :=
  ⟨by decide, C5_remove_marks_including_created _ _ (by decide)⟩

/-- C3 counterexample: on a record whose only row is already staged
`removed = True`, `remove()` is a no-op (its `data()` is empty) but
`restore()` clears the `removed` flag, so `remove(); restore()` does
not return the index to its pre-removal content. -/
theorem C3_counterexample :
    Record.restore (Record.remove
        ⟨[⟨0, 1, 10, 20, 30, true, false⟩], [⟨0, 1, 10, 20, 30⟩], 100, 1, false⟩ [1, 10, 20])
      [1, 10, 20]
      ≠ ⟨[⟨0, 1, 10, 20, 30, true, false⟩], [⟨0, 1, 10, 20, 30⟩], 100, 1, false⟩ := by
  decide

/-- C3 (amended): on a disk-backed database, when every row in the
record's scope is fully committed (neither `created` nor `removed`),
`remove()` followed by `restore()` returns the database to exactly its
state before the removal: the same index rows with the same flags, and
the same files on disk. -/
theorem C3_remove_restore_roundtrip (s : Db) (r : List Nat)
    (hpath : s.pathIsNone = false)
    (hnodup : (s.rows.map Row.file).Nodup)
    (hclean : ∀ row ∈ Record.scope s r, row.created = false ∧ row.removed = false) :
    Record.restore (Record.remove s r) r = s := by
  have hdata : Record.data s r = Record.scope s r :=
    data_eq_scope_of_clean s r hpath (fun row h => (hclean row h).2)
  by_cases hs : Record.scope s r = []
  · -- remove is a no-op and restore finds an empty scope
    have hrem : Record.remove s r = s := by
      simp only [Record.remove, hdata, hs]
      rfl
    rw [hrem]
    simp only [Record.restore, hs, List.filter_nil, List.map_nil, List.not_mem_nil,
      not_false_eq_true, decide_True, List.filter_true]
    ext1 <;> simp
  · have hdne : (Record.data s r).isEmpty = false := by
      rw [hdata]
      exact List.isEmpty_eq_false.mpr hs
    have hcond : ∀ row ∈ s.rows,
        (((Record.data s r).any (fun q => q.file = row.file)) = true ↔
          row ∈ Record.scope s r) := by
      intro row hrow
      rw [hdata]
      constructor
      · intro hany
        obtain ⟨q, hq, hfile⟩ := List.any_eq_true.mp hany
        have hq2 : q = row := List.inj_on_of_nodup_map hnodup (scope_subset s r q hq) hrow
          (by simpa using hfile)
        exact hq2 ▸ hq
      · intro hmem
        exact List.any_eq_true.mpr ⟨row, hmem, by simp⟩
    have hrem : (Record.remove s r).rows = s.rows.map (fun row =>
        if row ∈ Record.scope s r then { row with removed := true } else row) := by
      simp only [Record.remove, hdne, Bool.false_eq_true, if_false]
      apply List.map_congr_left
      intro row hrow
      by_cases hm : row ∈ Record.scope s r
      · rw [if_pos ((hcond row hrow).mpr hm), if_pos hm]
      · rw [if_neg (fun h => hm ((hcond row hrow).mp h)), if_neg hm]
    -- the scope of the post-removal state is the marked scope
    have hcolpres : ∀ row : Row, ∀ j : Nat,
        ((if row ∈ Record.scope s r then { row with removed := true } else row).col j)
          = row.col j := by
      intro row j
      exact col_ite _ _ _ j rfl
    have hscope1 : Record.scope (Record.remove s r) r =
        (Record.scope s r).map (fun row => { row with removed := true }) := by
      unfold Record.scope
      by_cases hlen : r.length = 0
      · rw [if_pos hlen, if_pos hlen, hrem]
        apply List.map_congr_left
        intro row hrow
        have hmem : row ∈ Record.scope s r := by
          rw [mem_scope]
          exact ⟨hrow, Or.inl hlen⟩
        rw [if_pos hmem]
      · rw [if_neg hlen, if_neg hlen, hrem, List.filter_map]
        have hpred : ((fun row : Row => decide (row.col (r.length - 1) = r.getLastD 0)) ∘
            (fun row => if row ∈ Record.scope s r then { row with removed := true } else row))
            = (fun row : Row => decide (row.col (r.length - 1) = r.getLastD 0)) := by
          funext row
          simp only [Function.comp]
          rw [hcolpres row (r.length - 1)]
        rw [hpred]
        apply List.map_congr_left
        intro row hrow
        have hmem : row ∈ Record.scope s r := by
          rw [mem_scope]
          exact ⟨(List.mem_filter.mp hrow).1,
            Or.inr (by simpa using (List.mem_filter.mp hrow).2)⟩
        rw [if_pos hmem]
    -- the created rows of the marked scope: none
    have hcf : (((Record.scope (Record.remove s r) r).filter
        (fun row => row.created)).map (fun row => row.file)) = [] := by
      rw [hscope1, List.filter_map]
      have : ((Record.scope s r).filter ((fun row : Row => row.created) ∘
          (fun row => { row with removed := true }))) = [] := by
        rw [List.filter_eq_nil_iff]
        intro row hrow
        simp [(hclean row hrow).1]
      rw [this]
      rfl
    -- the removed rows of the marked scope: all of it
    have hrf : (((Record.scope (Record.remove s r) r).filter
        (fun row => row.removed)).map (fun row => row.file)) =
          (Record.scope s r).map (fun row => row.file) := by
      rw [hscope1, List.filter_map]
      have : ((Record.scope s r).filter ((fun row : Row => row.removed) ∘
          (fun row => { row with removed := true }))) = Record.scope s r := by
        rw [List.filter_eq_self]
        intro row hrow
        rfl
      rw [this, List.map_map]
      rfl
    have hfilemem : ∀ row ∈ s.rows,
        (row.file ∈ (Record.scope s r).map (fun row => row.file) ↔
          row ∈ Record.scope s r) := by
      intro row hrow
      constructor
      · intro hmem
        obtain ⟨q, hq, hfile⟩ := List.mem_map.mp hmem
        have hq2 : q = row := List.inj_on_of_nodup_map hnodup (scope_subset s r q hq) hrow hfile
        exact hq2 ▸ hq
      · intro hmem
        exact List.mem_map.mpr ⟨row, hmem, rfl⟩
    simp only [Record.restore]
    rw [hcf, hrf]
    ext1
    · -- rows come back unchanged
      show ((Record.remove s r).rows.map _).filter _ = s.rows
      rw [hrem, List.map_map]
      have hclear : ∀ row ∈ s.rows,
          ((fun row : Row =>
              if row.file ∈ (Record.scope s r).map (fun row => row.file) then
                { row with removed := false } else row) ∘
            (fun row => if row ∈ Record.scope s r then { row with removed := true } else row))
            row = row := by
        intro row hrow
        simp only [Function.comp]
        by_cases hm : row ∈ Record.scope s r
        · rw [if_pos hm]
          have hfm : ({ row with removed := true } : Row).file ∈
              (Record.scope s r).map (fun row => row.file) := by
            show row.file ∈ _
            exact (hfilemem row hrow).mpr hm
          rw [if_pos hfm]
          exact set_removed_false_eq row (hclean row hm).2
        · rw [if_neg hm, if_neg (fun h => hm ((hfilemem row hrow).mp h))]
      rw [List.map_congr_left hclear]
      have : ∀ row ∈ s.rows.map (fun a : Row => a), row.file ∉ ([] : List Nat) := by
        intro row _
        simp
      rw [List.map_id']
      rw [List.filter_eq_self.mpr (by intro a _; simp)]
    · show (Record.remove s r).disk.filter _ = s.disk
      rw [remove_disk]
      rw [List.filter_eq_self.mpr (by intro a _; simp)]
    · show (Record.remove s r).uidCtr = s.uidCtr
      exact remove_uidCtr s r
    · show (Record.remove s r).fileCtr = s.fileCtr
      exact remove_fileCtr s r
    · show (Record.remove s r).pathIsNone = s.pathIsNone
      exact remove_path s r

/-- Witness for C3 (amended) on a committed two-row database. -/
theorem C3_witness :
    ((⟨[⟨0, 1, 10, 20, 30, false, false⟩, ⟨1, 1, 10, 21, 31, false, false⟩],
        [⟨0, 1, 10, 20, 30⟩], 100, 2, false⟩ : Db).pathIsNone = false)
    ∧ ((([⟨0, 1, 10, 20, 30, false, false⟩, ⟨1, 1, 10, 21, 31, false, false⟩] : List Row).map
        Row.file).Nodup)
    ∧ (∀ row ∈ Record.scope (⟨[⟨0, 1, 10, 20, 30, false, false⟩,
          ⟨1, 1, 10, 21, 31, false, false⟩], [⟨0, 1, 10, 20, 30⟩], 100, 2, false⟩ : Db)
          [1, 10, 20], row.created = false ∧ row.removed = false)
    ∧ Record.restore (Record.remove ⟨[⟨0, 1, 10, 20, 30, false, false⟩,
          ⟨1, 1, 10, 21, 31, false, false⟩], [⟨0, 1, 10, 20, 30⟩], 100, 2, false⟩ [1, 10, 20])
        [1, 10, 20]
      = ⟨[⟨0, 1, 10, 20, 30, false, false⟩, ⟨1, 1, 10, 21, 31, false, false⟩],
          [⟨0, 1, 10, 20, 30⟩], 100, 2, false⟩ :=
  ⟨rfl, by decide, by decide,
    C3_remove_restore_roundtrip _ [1, 10, 20] rfl (by decide) (by decide)⟩

/-- C2: `save()` deletes from disk exactly the files of rows flagged
`removed` within the record's scope and drops exactly those rows from
the index; it clears the `created` flag on every scoped row flagged
`created` (and not `removed`); scoped rows with neither flag, and rows
outside the scope, are kept unchanged; no disk file outside the scoped
removed set is deleted and nothing new appears on disk. -/
theorem C2_save_spec (s : Db) (r : List Nat)
    (hnodup : (s.rows.map Row.file).Nodup) :
    (∀ row ∈ Record.scope s r,
        (row.removed = true →
          (∀ row2 ∈ (Record.save s r).rows, row2.file ≠ row.file)
          ∧ (∀ f ∈ (Record.save s r).disk, f.name ≠ row.file))
      ∧ (row.removed = false → row.created = true →
          { row with created := false } ∈ (Record.save s r).rows))
    ∧ (∀ row ∈ s.rows,
        (row ∈ Record.scope s r → row.removed = false → row.created = false →
          row ∈ (Record.save s r).rows)
        ∧ (row ∉ Record.scope s r → row ∈ (Record.save s r).rows))
    ∧ (∀ f ∈ s.disk, (∀ row ∈ Record.scope s r, row.removed = true → row.file ≠ f.name) →
        f ∈ (Record.save s r).disk)
    ∧ (∀ f ∈ (Record.save s r).disk, f ∈ s.disk)
    ∧ (∀ row2 ∈ (Record.save s r).rows, ∃ row ∈ s.rows,
        row2 = row ∨ row2 = { row with created := false }) := by
  have hcf : ∀ row ∈ s.rows,
      (row.file ∈ ((Record.scope s r).filter (fun row => row.created)).map
          (fun row => row.file) ↔ row ∈ Record.scope s r ∧ row.created = true) := by
    intro row hrow
    constructor
    · intro hmem
      obtain ⟨q, hq, hfile⟩ := List.mem_map.mp hmem
      have hq1 := List.mem_filter.mp hq
      have hq2 : q = row := List.inj_on_of_nodup_map hnodup
        (scope_subset s r q hq1.1) hrow hfile
      exact hq2 ▸ ⟨hq1.1, hq1.2⟩
    · intro ⟨h1, h2⟩
      exact List.mem_map.mpr ⟨row, List.mem_filter.mpr ⟨h1, h2⟩, rfl⟩
  have hrf : ∀ row ∈ s.rows,
      (row.file ∈ ((Record.scope s r).filter (fun row => row.removed)).map
          (fun row => row.file) ↔ row ∈ Record.scope s r ∧ row.removed = true) := by
    intro row hrow
    constructor
    · intro hmem
      obtain ⟨q, hq, hfile⟩ := List.mem_map.mp hmem
      have hq1 := List.mem_filter.mp hq
      have hq2 : q = row := List.inj_on_of_nodup_map hnodup
        (scope_subset s r q hq1.1) hrow hfile
      exact hq2 ▸ ⟨hq1.1, hq1.2⟩
    · intro ⟨h1, h2⟩
      exact List.mem_map.mpr ⟨row, List.mem_filter.mpr ⟨h1, h2⟩, rfl⟩
  have hrows : (Record.save s r).rows = (s.rows.map (fun row =>
      if row.file ∈ ((Record.scope s r).filter (fun row => row.created)).map
          (fun row => row.file) then { row with created := false } else row)).filter
      (fun row => row.file ∉ ((Record.scope s r).filter (fun row => row.removed)).map
          (fun row => row.file)) := rfl
  have hdisk : (Record.save s r).disk = s.disk.filter
      (fun f => f.name ∉ ((Record.scope s r).filter (fun row => row.removed)).map
          (fun row => row.file)) := rfl
  refine ⟨?_, ?_, ?_, ?_, ?_⟩
  · intro row hrowsc
    have hrow : row ∈ s.rows := scope_subset s r row hrowsc
    constructor
    · intro hrm
      constructor
      · intro row2 hrow2
        rw [hrows] at hrow2
        have h2 := List.mem_filter.mp hrow2
        intro heq
        have : row2.file ∈ ((Record.scope s r).filter (fun row => row.removed)).map
            (fun row => row.file) := by
          rw [heq]
          exact ((hrf row hrow).mpr ⟨hrowsc, hrm⟩)
        simpa [this] using h2.2
      · intro f hf
        rw [hdisk] at hf
        have h2 := List.mem_filter.mp hf
        intro heq
        have : f.name ∈ ((Record.scope s r).filter (fun row => row.removed)).map
            (fun row => row.file) := by
          rw [heq]
          exact ((hrf row hrow).mpr ⟨hrowsc, hrm⟩)
        simpa [this] using h2.2
    · intro hrm hcr
      rw [hrows]
      apply List.mem_filter.mpr
      constructor
      · exact List.mem_map.mpr ⟨row, hrow, if_pos ((hcf row hrow).mpr ⟨hrowsc, hcr⟩)⟩
      · rw [decide_eq_true_eq]
        intro hmem
        have hmem2 : row.file ∈ ((Record.scope s r).filter (fun row => row.removed)).map
            (fun row => row.file) := hmem
        have h := (hrf row hrow).mp hmem2
        rw [h.2] at hrm
        exact absurd hrm (by simp)
  · intro row hrow
    have hkeep : ∀ hnc : row.file ∉ ((Record.scope s r).filter (fun row => row.created)).map
        (fun row => row.file), ∀ hnr : row.file ∉ ((Record.scope s r).filter
        (fun row => row.removed)).map (fun row => row.file),
        row ∈ (Record.save s r).rows := by
      intro hnc hnr
      rw [hrows]
      apply List.mem_filter.mpr
      constructor
      · exact List.mem_map.mpr ⟨row, hrow, if_neg hnc⟩
      · simpa using hnr
    constructor
    · intro hsc hrm hcr
      refine hkeep ?_ ?_
      · intro hmem
        have h := (hcf row hrow).mp hmem
        rw [hcr] at h
        exact absurd h.2 (by simp)
      · intro hmem
        have h := (hrf row hrow).mp hmem
        rw [hrm] at h
        exact absurd h.2 (by simp)
    · intro hsc
      refine hkeep ?_ ?_
      · intro hmem
        exact hsc ((hcf row hrow).mp hmem).1
      · intro hmem
        exact hsc ((hrf row hrow).mp hmem).1
  · intro f hf hno
    rw [hdisk]
    apply List.mem_filter.mpr
    refine ⟨hf, ?_⟩
    rw [decide_eq_true_eq]
    intro hmem
    obtain ⟨q, hq, hfile⟩ := List.mem_map.mp hmem
    have hq1 := List.mem_filter.mp hq
    exact hno q hq1.1 hq1.2 hfile
  · intro f hf
    rw [hdisk] at hf
    exact (List.mem_filter.mp hf).1
  · intro row2 hrow2
    rw [hrows] at hrow2
    obtain ⟨row, hrow, heq⟩ := List.mem_map.mp (List.mem_filter.mp hrow2).1
    refine ⟨row, hrow, ?_⟩
    by_cases hc : row.file ∈ ((Record.scope s r).filter (fun row => row.created)).map
        (fun row => row.file)
    · rw [if_pos hc] at heq
      exact Or.inr heq.symm
    · rw [if_neg hc] at heq
      exact Or.inl heq.symm

/-- Witness for C2 on a database with one removed, one created and one
committed row in the saved record's scope. -/
theorem C2_witness :
    ((([⟨0, 1, 10, 20, 30, true, false⟩, ⟨1, 1, 10, 20, 31, false, true⟩,
        ⟨2, 1, 10, 20, 32, false, false⟩] : List Row).map Row.file).Nodup)
    ∧ ((∀ row ∈ Record.scope (⟨[⟨0, 1, 10, 20, 30, true, false⟩,
            ⟨1, 1, 10, 20, 31, false, true⟩, ⟨2, 1, 10, 20, 32, false, false⟩],
            [⟨0, 1, 10, 20, 30⟩, ⟨2, 1, 10, 20, 32⟩], 100, 3, false⟩ : Db) [1, 10, 20],
          (row.removed = true →
            (∀ row2 ∈ (Record.save ⟨[⟨0, 1, 10, 20, 30, true, false⟩,
                ⟨1, 1, 10, 20, 31, false, true⟩, ⟨2, 1, 10, 20, 32, false, false⟩],
                [⟨0, 1, 10, 20, 30⟩, ⟨2, 1, 10, 20, 32⟩], 100, 3, false⟩ [1, 10, 20]).rows,
              row2.file ≠ row.file)
            ∧ (∀ f ∈ (Record.save ⟨[⟨0, 1, 10, 20, 30, true, false⟩,
                ⟨1, 1, 10, 20, 31, false, true⟩, ⟨2, 1, 10, 20, 32, false, false⟩],
                [⟨0, 1, 10, 20, 30⟩, ⟨2, 1, 10, 20, 32⟩], 100, 3, false⟩ [1, 10, 20]).disk,
              f.name ≠ row.file))
          ∧ (row.removed = false → row.created = true →
              { row with created := false } ∈ (Record.save ⟨[⟨0, 1, 10, 20, 30, true, false⟩,
                ⟨1, 1, 10, 20, 31, false, true⟩, ⟨2, 1, 10, 20, 32, false, false⟩],
                [⟨0, 1, 10, 20, 30⟩, ⟨2, 1, 10, 20, 32⟩], 100, 3, false⟩ [1, 10, 20]).rows))) :=
  ⟨by decide, (C2_save_spec ⟨[⟨0, 1, 10, 20, 30, true, false⟩,
      ⟨1, 1, 10, 20, 31, false, true⟩, ⟨2, 1, 10, 20, 32, false, false⟩],
      [⟨0, 1, 10, 20, 30⟩, ⟨2, 1, 10, 20, 32⟩], 100, 3, false⟩ [1, 10, 20] (by decide)).1⟩

/-- C10: for a record of generation at least 1, `save()` and
`restore()` modify only index rows whose generation-G identifier column
equals the record's last UID component: every other row is kept in the
index unchanged (same flags), and its file on disk is neither deleted
nor rewritten by either call. -/
theorem C10_save_restore_frame (s : Db) (r : List Nat)
    (hgen : 1 ≤ r.length)
    (hnodup : (s.rows.map Row.file).Nodup) :
    ∀ row ∈ s.rows, row.col (r.length - 1) ≠ r.getLastD 0 →
      row ∈ (Record.save s r).rows ∧ row ∈ (Record.restore s r).rows
      ∧ (∀ f ∈ s.disk, f.name = row.file →
          f ∈ (Record.save s r).disk ∧ f ∈ (Record.restore s r).disk) := by
  intro row hrow hcol
  have hsc : row ∉ Record.scope s r := by
    rw [mem_scope]
    rintro ⟨_, h | h⟩
    · omega
    · exact hcol h
  have hncf : row.file ∉ ((Record.scope s r).filter (fun row => row.created)).map
      (fun row => row.file) := fun h =>
    hsc ((file_mem_scope_filter s r hnodup _ row hrow).mp h).1
  have hnrf : row.file ∉ ((Record.scope s r).filter (fun row => row.removed)).map
      (fun row => row.file) := fun h =>
    hsc ((file_mem_scope_filter s r hnodup _ row hrow).mp h).1
  refine ⟨?_, ?_, ?_⟩
  · rw [save_rows]
    exact List.mem_filter.mpr
      ⟨List.mem_map.mpr ⟨row, hrow, if_neg hncf⟩, by simpa using hnrf⟩
  · rw [restore_rows]
    exact List.mem_filter.mpr
      ⟨List.mem_map.mpr ⟨row, hrow, if_neg hnrf⟩, by simpa using hncf⟩
  · intro f hf hname
    constructor
    · rw [save_disk]
      refine List.mem_filter.mpr ⟨hf, ?_⟩
      rw [decide_eq_true_eq, hname]
      exact hnrf
    · rw [restore_disk]
      refine List.mem_filter.mpr ⟨hf, ?_⟩
      rw [decide_eq_true_eq, hname]
      exact hncf

/-- Witness for C10: a row of another series is untouched by both
`save()` and `restore()`. -/
theorem C10_witness :
    (1 ≤ ([1, 10, 20] : List Nat).length)
    ∧ ((([⟨0, 1, 10, 20, 30, true, true⟩, ⟨1, 1, 10, 21, 31, false, true⟩] : List Row).map
        Row.file).Nodup)
    ∧ (∀ row ∈ (⟨[⟨0, 1, 10, 20, 30, true, true⟩, ⟨1, 1, 10, 21, 31, false, true⟩],
          [⟨1, 1, 10, 21, 31⟩], 100, 2, false⟩ : Db).rows,
        row.col (([1, 10, 20] : List Nat).length - 1) ≠ ([1, 10, 20] : List Nat).getLastD 0 →
          row ∈ (Record.save ⟨[⟨0, 1, 10, 20, 30, true, true⟩,
              ⟨1, 1, 10, 21, 31, false, true⟩], [⟨1, 1, 10, 21, 31⟩], 100, 2, false⟩
              [1, 10, 20]).rows
          ∧ row ∈ (Record.restore ⟨[⟨0, 1, 10, 20, 30, true, true⟩,
              ⟨1, 1, 10, 21, 31, false, true⟩], [⟨1, 1, 10, 21, 31⟩], 100, 2, false⟩
              [1, 10, 20]).rows
          ∧ (∀ f ∈ (⟨[⟨0, 1, 10, 20, 30, true, true⟩, ⟨1, 1, 10, 21, 31, false, true⟩],
              [⟨1, 1, 10, 21, 31⟩], 100, 2, false⟩ : Db).disk, f.name = row.file →
              f ∈ (Record.save ⟨[⟨0, 1, 10, 20, 30, true, true⟩,
                ⟨1, 1, 10, 21, 31, false, true⟩], [⟨1, 1, 10, 21, 31⟩], 100, 2, false⟩
                [1, 10, 20]).disk
              ∧ f ∈ (Record.restore ⟨[⟨0, 1, 10, 20, 30, true, true⟩,
                ⟨1, 1, 10, 21, 31, false, true⟩], [⟨1, 1, 10, 21, 31⟩], 100, 2, false⟩
                [1, 10, 20]).disk)) :=
  ⟨by decide, by decide,
    C10_save_restore_frame ⟨[⟨0, 1, 10, 20, 30, true, true⟩, ⟨1, 1, 10, 21, 31, false, true⟩],
      [⟨1, 1, 10, 21, 31⟩], 100, 2, false⟩ [1, 10, 20] (by decide) (by decide)⟩

/-- C7: for a record of generation at least 1 moved to a proper
ancestor, `move_to(ancestor)` yields exactly the same disk contents,
and exactly the same new index rows (beyond the pre-existing ones), as
`copy_to(ancestor)` on the same state; additionally it stages
`removed = True` on every row of the source record's `data()` row set,
keeps every other pre-existing row unchanged, and deletes no file that
was on disk before the call. -/
theorem C7_move_is_copy_then_stage_remove (s : Db) (r dst : List Nat)
    (hpath : s.pathIsNone = false)
    (hr : 1 ≤ r.length) (hr4 : r.length ≤ 4)
    (hanc : dst.length < r.length)
    (hlast : r.getLastD 0 < s.uidCtr)
    (hfile : ∀ row ∈ s.rows, row.file < s.fileCtr)
    (hnodup : (s.rows.map Row.file).Nodup) :
    (Record.move_to s r dst).disk = (Record.copy_to s r dst).disk
    ∧ (∀ f ∈ s.disk, f ∈ (Record.move_to s r dst).disk)
    ∧ (Record.move_to s r dst).rows.drop s.rows.length
        = (Record.copy_to s r dst).rows.drop s.rows.length
    ∧ (∀ row ∈ s.rows,
        (row ∈ Record.data s r →
          { row with removed := true } ∈ (Record.move_to s r dst).rows)
        ∧ (row ∉ Record.data s r → row ∈ (Record.move_to s r dst).rows)) := by
  have hrne : r ≠ [] := by
    intro h
    rw [h] at hr
    simp at hr
  have hcopy := copy_to_pos s r dst (by omega)
  have hobjlen : (dst ++ (List.range (r.length - dst.length)).map
      (fun i => s.uidCtr + i)).length = r.length := by
    simp only [List.length_append, List.length_map, List.length_range]
    omega
  have hnomatch : ∀ row ∈ mergeNew { s with uidCtr := s.uidCtr + (r.length - dst.length) } r
      (dst ++ (List.range (r.length - dst.length)).map (fun i => s.uidCtr + i)),
      ¬(row.col (r.length - 1) = r.getLastD 0) := by
    intro row hrow heq
    have hcol := col_mergeNew _ r _ (by rw [hobjlen]; omega) row hrow (r.length - 1)
      (by rw [hobjlen]; omega)
    rw [getD_pad dst s.uidCtr r.length (r.length - 1) (by omega) (by omega)] at hcol
    rw [hcol] at heq
    omega
  have hdata1 : Record.data (Record.copy_to s r dst) r = Record.data s r := by
    rw [hcopy]
    exact data_merge_of_no_match _ r _ r hpath hrne hnomatch
  have hdiskmove : (Record.move_to s r dst).disk = (Record.copy_to s r dst).disk :=
    remove_disk _ r
  by_cases hd : Record.data s r = []
  · have hmove : Record.move_to s r dst = Record.copy_to s r dst := by
      unfold Record.move_to
      simp only [Record.remove, hdata1, hd, List.isEmpty_nil, if_true]
    refine ⟨hdiskmove, ?_, by rw [hmove], ?_⟩
    · intro f hf
      rw [hdiskmove, hcopy, merge_with_disk]
      exact List.mem_append_left _ hf
    · intro row hrow
      refine ⟨fun hmem => ?_, fun _ => ?_⟩
      · rw [hd] at hmem
        simp at hmem
      · rw [hmove, hcopy, merge_with_rows]
        exact List.mem_append_left _ hrow
  · have hdne : (Record.data (Record.copy_to s r dst) r).isEmpty = false := by
      rw [hdata1]
      exact List.isEmpty_eq_false.mpr hd
    have hrows_move : (Record.move_to s r dst).rows
        = (s.rows.map (fun row =>
            if row ∈ Record.data s r then { row with removed := true } else row))
          ++ mergeNew { s with uidCtr := s.uidCtr + (r.length - dst.length) } r
            (dst ++ (List.range (r.length - dst.length)).map (fun i => s.uidCtr + i)) := by
      unfold Record.move_to
      simp only [Record.remove, hdne, Bool.false_eq_true, if_false]
      show (Record.copy_to s r dst).rows.map _ = _
      rw [hdata1, hcopy, merge_with_rows, List.map_append]
      congr 1
      · apply List.map_congr_left
        intro row hrow
        by_cases hm : row ∈ Record.data s r
        · rw [if_pos ((List.any_eq_true.mpr ⟨row, hm, by simp⟩ : _)), if_pos hm]
        · rw [if_neg, if_neg hm]
          intro hany
          obtain ⟨q, hq, hfileq⟩ := List.any_eq_true.mp hany
          have hq2 : q = row := List.inj_on_of_nodup_map hnodup
            (data_subset s r q hq) hrow (by simpa using hfileq)
          exact hm (hq2 ▸ hq)
      · refine Eq.trans (List.map_congr_left ?_) (List.map_id _)
        intro row hrow
        have hcond : ¬(((Record.data s r).any (fun q => q.file = row.file)) = true) := by
          intro hany
          obtain ⟨q, hq, hfileq⟩ := List.any_eq_true.mp hany
          have hql : q.file < s.fileCtr := hfile q (data_subset s r q hq)
          obtain ⟨i, hi, hfi⟩ := file_mergeNew_mem _ r _ row hrow
          rw [decide_eq_true_eq] at hfileq
          rw [hfileq, hfi] at hql
          simp only at hql
          omega
        rw [if_neg hcond]
        rfl
    refine ⟨hdiskmove, ?_, ?_, ?_⟩
    · intro f hf
      rw [hdiskmove, hcopy, merge_with_disk]
      exact List.mem_append_left _ hf
    · rw [hrows_move, hcopy, merge_with_rows,
        List.drop_left' (List.length_map _ _), List.drop_left' rfl]
    · intro row hrow
      rw [hrows_move]
      refine ⟨fun hmem => ?_, fun hmem => ?_⟩
      · exact List.mem_append_left _ (List.mem_map.mpr ⟨row, hrow, if_pos hmem⟩)
      · exact List.mem_append_left _ (List.mem_map.mpr ⟨row, hrow, if_neg hmem⟩)

/-- C1 counterexample: copying a whole Patient (generation 1) to the
database does not preserve the Study identifiers below the copy point.
The re-keying loop runs over columns `[1, 3)`, and because the boolean
mask's `.index` in `df.loc[rows.index, key] = uid` is the entire index,
each pass overwrites the whole column: the two source studies 10 and 11
come out carrying the single fresh value 102 (and the two series 20 and
21 the single fresh value 104). -/
theorem C1_counterexample :
    ((Record.copy_to
        ⟨[⟨0, 1, 10, 20, 30, false, false⟩, ⟨1, 1, 11, 21, 31, false, false⟩],
          [⟨0, 1, 10, 20, 30⟩, ⟨1, 1, 11, 21, 31⟩], 100, 2, false⟩ [1] []).rows.drop 2).length
      = 2
    ∧ ∀ row ∈ (Record.copy_to
        ⟨[⟨0, 1, 10, 20, 30, false, false⟩, ⟨1, 1, 11, 21, 31, false, false⟩],
          [⟨0, 1, 10, 20, 30⟩, ⟨1, 1, 11, 21, 31⟩], 100, 2, false⟩ [1] []).rows.drop 2,
      row.studyInstanceUID ≠ 10 ∧ row.studyInstanceUID ≠ 11
        ∧ row.studyInstanceUID = 102 ∧ row.seriesInstanceUID = 104 := by
  decide

/-- C1 (amended): copying a record of generation G (1 ≤ G ≤ 3) to an
ancestor of lower generation A produces one new staged row per `data()`
row such that: identifiers at levels below A exactly equal the
destination's; every identifier level in [A, 3) is regenerated — a
single freshly generated value shared by all copied rows per level
(for levels in [G, 3) this collapses distinct source values), never
equal to any identifier of an existing row; every SOPInstanceUID is
freshly generated, pairwise distinct and never equal to any identifier
of an existing row; and each rewritten file on disk carries its row's
four identifiers.  For a Series copied to a Study this specializes to
the claim's first sentence: fresh SeriesInstanceUID, fresh
SOPInstanceUIDs, PatientID/StudyInstanceUID equal to the
destination's. -/
theorem C1_copy_rekeying (s : Db) (r dst : List Nat)
    (hpath : s.pathIsNone = false)
    (hG1 : 1 ≤ r.length) (hG3 : r.length ≤ 3)
    (hA : dst.length < r.length)
    (hbound : ∀ row ∈ s.rows, ∀ u ∈ row.uids, u < s.uidCtr) :
    (((Record.copy_to s r dst).rows.drop s.rows.length).length
        = (Record.data s r).length)
    ∧ (∀ row ∈ (Record.copy_to s r dst).rows.drop s.rows.length,
        ∀ j, j < dst.length → row.col j = dst.getD j 0)
    ∧ (∀ j, dst.length ≤ j → j < 3 → ∃ v, s.uidCtr ≤ v
        ∧ (∀ row0 ∈ s.rows, ∀ u ∈ row0.uids, v ≠ u)
        ∧ ∀ row ∈ (Record.copy_to s r dst).rows.drop s.rows.length, row.col j = v)
    ∧ (∀ row ∈ (Record.copy_to s r dst).rows.drop s.rows.length,
        s.uidCtr ≤ row.sopInstanceUID
        ∧ (∀ row0 ∈ s.rows, ∀ u ∈ row0.uids, row.sopInstanceUID ≠ u)
        ∧ row.created = true ∧ row.removed = false
        ∧ (⟨row.file, row.patientID, row.studyInstanceUID, row.seriesInstanceUID,
            row.sopInstanceUID⟩ : DFile) ∈ (Record.copy_to s r dst).disk)
    ∧ (((Record.copy_to s r dst).rows.drop s.rows.length).map
        Row.sopInstanceUID).Nodup := by
  have hcopy := copy_to_pos s r dst (by omega)
  have hobjlen : (dst ++ (List.range (r.length - dst.length)).map
      (fun i => s.uidCtr + i)).length = r.length := by
    simp only [List.length_append, List.length_map, List.length_range]
    omega
  have hdrop : (Record.copy_to s r dst).rows.drop s.rows.length
      = mergeNew { s with uidCtr := s.uidCtr + (r.length - dst.length) } r
          (dst ++ (List.range (r.length - dst.length)).map (fun i => s.uidCtr + i)) := by
    rw [hcopy, merge_with_rows]
    exact List.drop_left' rfl
  refine ⟨?_, ?_, ?_, ?_, ?_⟩
  · rw [hdrop, length_mergeNew]
    rfl
  · intro row hrow j hj
    rw [hdrop] at hrow
    rw [col_mergeNew _ r _ (by omega) row hrow j (by omega)]
    exact List.getD_append _ _ _ _ hj
  · intro j hjA hj3
    by_cases hjG : j < r.length
    · -- padding region: the fresh UIDs allocated by the copy record's
      -- constructor, shared because the whole copy carries obj.UID
      refine ⟨s.uidCtr + (j - dst.length), by omega, ?_, ?_⟩
      · intro row0 hrow0 u hu
        have := hbound row0 hrow0 u hu
        omega
      · intro row hrow
        rw [hdrop] at hrow
        rw [col_mergeNew _ r _ (by omega) row hrow j (by omega)]
        exact getD_pad dst s.uidCtr r.length j hjA hjG
    · -- re-keyed region: the value generated for the last distinct
      -- source value, shared over the whole column
      obtain ⟨v, hv, hshare⟩ := rekey_shared r.length
        (mapIdx (fun i row => { row with file := s.fileCtr + i })
          (Record.data { s with uidCtr := s.uidCtr + (r.length - dst.length) } r))
        (s.uidCtr + (r.length - dst.length)) j hG1 (by omega) hj3
      refine ⟨v, by omega, ?_, ?_⟩
      · intro row0 hrow0 u hu
        have := hbound row0 hrow0 u hu
        omega
      · intro row hrow
        rw [hdrop] at hrow
        obtain ⟨row2, hrow2, heq⟩ := col_mergeNew_high _ r _ (by rw [hobjlen]) j
          (by omega) hj3 row hrow
        rw [heq]
        exact hshare row2 hrow2
  · intro row hrow
    rw [hdrop] at hrow
    obtain ⟨i, hi, hsop⟩ := sop_mergeNew_mem _ r _ (by rw [hobjlen]; omega) row hrow
    have hge : s.uidCtr + (r.length - dst.length) ≤ mergeCtr
        { s with uidCtr := s.uidCtr + (r.length - dst.length) } r :=
      mergeCtr_ge { s with uidCtr := s.uidCtr + (r.length - dst.length) } r
    refine ⟨by omega, ?_, (flags_mergeNew _ r _ row hrow).2,
      (flags_mergeNew _ r _ row hrow).1, ?_⟩
    · intro row0 hrow0 u hu
      have := hbound row0 hrow0 u hu
      omega
    · rw [hcopy, merge_with_disk]
      refine List.mem_append_right _ ?_
      exact List.mem_map.mpr ⟨row, hrow, rfl⟩
  · rw [hdrop, map_sop_mergeNew _ r _ (by rw [hobjlen]; omega)]
    refine List.Nodup.map ?_ (List.nodup_range _)
    intro a b h
    exact Nat.add_left_cancel h

/-- Witness for C1: copying a one-instance Series into another Study;
the copy carries the destination's PatientID and StudyInstanceUID, a
fresh SeriesInstanceUID and a fresh SOPInstanceUID. -/
theorem C1_witness :
    ((⟨[⟨0, 1, 10, 20, 30, false, false⟩], [⟨0, 1, 10, 20, 30⟩], 100, 1, false⟩ : Db).pathIsNone
        = false)
    ∧ (1 ≤ ([1, 10, 20] : List Nat).length)
    ∧ (([1, 10, 20] : List Nat).length ≤ 3)
    ∧ (([1, 11] : List Nat).length < ([1, 10, 20] : List Nat).length)
    ∧ (∀ row ∈ (⟨[⟨0, 1, 10, 20, 30, false, false⟩], [⟨0, 1, 10, 20, 30⟩],
          100, 1, false⟩ : Db).rows, ∀ u ∈ row.uids,
        u < (⟨[⟨0, 1, 10, 20, 30, false, false⟩], [⟨0, 1, 10, 20, 30⟩],
          100, 1, false⟩ : Db).uidCtr)
    ∧ (∀ row ∈ (Record.copy_to ⟨[⟨0, 1, 10, 20, 30, false, false⟩], [⟨0, 1, 10, 20, 30⟩],
          100, 1, false⟩ [1, 10, 20] [1, 11]).rows.drop
          (⟨[⟨0, 1, 10, 20, 30, false, false⟩], [⟨0, 1, 10, 20, 30⟩],
            100, 1, false⟩ : Db).rows.length,
        ∀ j, j < ([1, 11] : List Nat).length → row.col j = ([1, 11] : List Nat).getD j 0) :=
  ⟨rfl, by decide, by decide, by decide, by decide,
    (C1_copy_rekeying ⟨[⟨0, 1, 10, 20, 30, false, false⟩], [⟨0, 1, 10, 20, 30⟩],
      100, 1, false⟩ [1, 10, 20] [1, 11] rfl (by decide) (by decide) (by decide)
      (by decide)).2.1⟩

/-- Witness for C7: moving a series with one instance into another
study. -/
theorem C7_witness :
    ((⟨[⟨0, 1, 10, 20, 30, false, false⟩, ⟨1, 1, 11, 21, 31, false, false⟩],
        [⟨0, 1, 10, 20, 30⟩, ⟨1, 1, 11, 21, 31⟩], 100, 2, false⟩ : Db).pathIsNone = false)
    ∧ (1 ≤ ([1, 10, 20] : List Nat).length)
    ∧ (([1, 10, 20] : List Nat).length ≤ 4)
    ∧ (([1, 11] : List Nat).length < ([1, 10, 20] : List Nat).length)
    ∧ (([1, 10, 20] : List Nat).getLastD 0
        < (⟨[⟨0, 1, 10, 20, 30, false, false⟩, ⟨1, 1, 11, 21, 31, false, false⟩],
            [⟨0, 1, 10, 20, 30⟩, ⟨1, 1, 11, 21, 31⟩], 100, 2, false⟩ : Db).uidCtr)
    ∧ ((Record.move_to ⟨[⟨0, 1, 10, 20, 30, false, false⟩, ⟨1, 1, 11, 21, 31, false, false⟩],
          [⟨0, 1, 10, 20, 30⟩, ⟨1, 1, 11, 21, 31⟩], 100, 2, false⟩ [1, 10, 20] [1, 11]).disk
        = (Record.copy_to ⟨[⟨0, 1, 10, 20, 30, false, false⟩, ⟨1, 1, 11, 21, 31, false, false⟩],
          [⟨0, 1, 10, 20, 30⟩, ⟨1, 1, 11, 21, 31⟩], 100, 2, false⟩ [1, 10, 20] [1, 11]).disk) :=
  ⟨rfl, by decide, by decide, by decide, by decide,
    (C7_move_is_copy_then_stage_remove ⟨[⟨0, 1, 10, 20, 30, false, false⟩,
        ⟨1, 1, 11, 21, 31, false, false⟩], [⟨0, 1, 10, 20, 30⟩, ⟨1, 1, 11, 21, 31⟩],
        100, 2, false⟩ [1, 10, 20] [1, 11] rfl (by decide) (by decide) (by decide) (by decide)
        (by decide) (by decide)).1⟩

/-- C4 counterexample: starting from a clean committed database, the
sequence `copy_to` (staging a created copy) followed by `remove()` on
the staged copy produces an index row with `created = True` and
`removed = True` simultaneously: the mutual-exclusion invariant does
not hold over unrestricted sequences of the claim's operations. -/
theorem C4_counterexample :
    FlagsOK ⟨[⟨0, 1, 2, 3, 4, false, false⟩], [⟨0, 1, 2, 3, 4⟩], 10, 1, false⟩
    ∧ ∃ row ∈ (applyOps ⟨[⟨0, 1, 2, 3, 4, false, false⟩], [⟨0, 1, 2, 3, 4⟩], 10, 1, false⟩
        [Op.copyTo [1, 2, 3] [1, 2], Op.removeRec [0, 0, 10]]).rows,
      row.created = true ∧ row.removed = true := by
  constructor
  · intro row hrow
    simp only [List.mem_singleton] at hrow
    subst hrow
    decide
  · decide

/-- C4 (amended): over any sequence of `new_*` creation, `copy_to`,
`move_to`, `merge_with`, `remove`, `save` and `restore` operations in
which `remove()` (including the removal step of `move_to`) is only
invoked on records none of whose current `data()` rows are staged
`created`, no index row ever carries `created = True` and
`removed = True` at the same time, starting from a state satisfying the
invariant with unique, allocator-bounded file names. -/
theorem C4_flags_mutual_exclusion (s0 s : Db)
    (h0 : FlagsOK s0) (hf0 : FilesOK s0) (hre : Reach4 s0 s) :
    FlagsOK s := by
  suffices h : FlagsOK s ∧ FilesOK s from h.1
  induction hre with
  | refl => exact ⟨h0, hf0⟩
  | newInst s1 p _ ih =>
    exact ⟨flagsOK_newInstance _ p ih.1, filesOK_newInstance _ p ih.2⟩
  | copyTo s1 r dst _ ih =>
    exact ⟨flagsOK_copy _ r dst ih.1, filesOK_copy _ r dst ih.2⟩
  | mergeWith s1 r obj _ ih =>
    exact ⟨flagsOK_merge _ r obj ih.1, filesOK_merge _ r obj ih.2⟩
  | removeRec s1 r _ hguard ih =>
    exact ⟨flagsOK_remove _ r ih.1 ih.2.1 hguard, filesOK_remove _ r ih.2⟩
  | moveTo s1 r dst _ hguard ih =>
    exact ⟨flagsOK_remove _ r (flagsOK_copy _ r dst ih.1)
        (filesOK_copy _ r dst ih.2).1 hguard,
      filesOK_remove _ r (filesOK_copy _ r dst ih.2)⟩
  | saveRec s1 r _ ih =>
    exact ⟨flagsOK_save _ r ih.1, filesOK_save _ r ih.2⟩
  | restoreRec s1 r _ ih =>
    exact ⟨flagsOK_restore _ r ih.1, filesOK_restore _ r ih.2⟩

/-- Witness for C4 (amended): a copy followed by a guarded save keeps
the invariant on a concrete database. -/
theorem C4_witness :
    FlagsOK ⟨[⟨0, 1, 2, 3, 4, false, false⟩], [⟨0, 1, 2, 3, 4⟩], 10, 1, false⟩
    ∧ FilesOK ⟨[⟨0, 1, 2, 3, 4, false, false⟩], [⟨0, 1, 2, 3, 4⟩], 10, 1, false⟩
    ∧ FlagsOK (Record.save (Record.copy_to
        ⟨[⟨0, 1, 2, 3, 4, false, false⟩], [⟨0, 1, 2, 3, 4⟩], 10, 1, false⟩ [1, 2, 3] [1, 2])
        []) :=
  ⟨fun row hrow => by simp only [List.mem_singleton] at hrow; subst hrow; decide,
    ⟨by decide, fun row hrow => by simp only [List.mem_singleton] at hrow; subst hrow; decide⟩,
    C4_flags_mutual_exclusion ⟨[⟨0, 1, 2, 3, 4, false, false⟩], [⟨0, 1, 2, 3, 4⟩],
        10, 1, false⟩ _
      (fun row hrow => by simp only [List.mem_singleton] at hrow; subst hrow; decide)
      ⟨by decide, fun row hrow => by simp only [List.mem_singleton] at hrow; subst hrow; decide⟩
      (Reach4.saveRec _ _ []
        (Reach4.copyTo _ _ [1, 2, 3] [1, 2] (Reach4.refl _)))⟩

/-- C6 counterexample: a generation-4 `merge_with` (one instance merged
onto another instance record) stamps the destination's full four-UID
tuple onto the copied row, duplicating the destination instance's
tuple, even though the UID generator never returned an existing value
(every identifier in the state is below the counter). -/
theorem C6_counterexample :
    SopOK ⟨[⟨0, 1, 10, 20, 30, false, false⟩, ⟨1, 1, 11, 21, 31, false, false⟩],
      [⟨0, 1, 10, 20, 30⟩, ⟨1, 1, 11, 21, 31⟩], 100, 2, false⟩
    ∧ (∀ row ∈ (⟨[⟨0, 1, 10, 20, 30, false, false⟩, ⟨1, 1, 11, 21, 31, false, false⟩],
        [⟨0, 1, 10, 20, 30⟩, ⟨1, 1, 11, 21, 31⟩], 100, 2, false⟩ : Db).rows,
        ∀ u ∈ row.uids, u < 100)
    ∧ ¬ ((Record.merge_with ⟨[⟨0, 1, 10, 20, 30, false, false⟩,
          ⟨1, 1, 11, 21, 31, false, false⟩],
          [⟨0, 1, 10, 20, 30⟩, ⟨1, 1, 11, 21, 31⟩], 100, 2, false⟩
          [1, 10, 20, 30] [1, 11, 21, 31]).rows.Pairwise
        (fun a b => a.uids ≠ b.uids)) := by
  exact ⟨⟨rfl, by decide, by decide⟩, by decide, by decide⟩

/-- C6 (amended): over any sequence of `new_uid`, `copy_to` (to a
proper ancestor) and `merge_with` calls in which every `merge_with`
source has generation at most 3 (with a destination record of the same
generation), no two index rows ever share the same (PatientID,
StudyInstanceUID, SeriesInstanceUID, SOPInstanceUID) tuple — starting
from a disk-backed state whose SOPInstanceUIDs are pairwise distinct
and below the generator counter (the claim's hypothesis that the
generator never returns an existing or previously generated value). -/
theorem C6_uid_tuple_uniqueness (s0 s : Db) (h0 : SopOK s0) (hre : Reach6 s0 s) :
    s.rows.Pairwise (fun a b => a.uids ≠ b.uids) := by
  suffices h : SopOK s by
    have hnd := h.2.2
    rw [List.Nodup, List.pairwise_map] at hnd
    refine hnd.imp ?_
    intro a b hne heq
    apply hne
    simp only [Row.uids, List.cons.injEq] at heq
    exact heq.2.2.2.1
  induction hre with
  | refl => exact h0
  | newUid s1 _ ih => exact sopOK_bump _ _ (Nat.le_succ _) ih
  | copyTo s1 r dst _ hg1 hg4 hgA ih => exact sopOK_copy _ r dst ih hg1 hg4 hgA
  | mergeWith s1 r obj _ hg1 hg3 hgobj ih =>
    exact sopOK_merge _ r obj ih (by omega)

/-- Witness for C6 (amended): copying a series to another study keeps
all four-UID tuples distinct on a concrete database. -/
theorem C6_witness :
    SopOK ⟨[⟨0, 1, 10, 20, 30, false, false⟩, ⟨1, 1, 11, 21, 31, false, false⟩],
      [⟨0, 1, 10, 20, 30⟩, ⟨1, 1, 11, 21, 31⟩], 100, 2, false⟩
    ∧ (Record.copy_to ⟨[⟨0, 1, 10, 20, 30, false, false⟩,
        ⟨1, 1, 11, 21, 31, false, false⟩],
        [⟨0, 1, 10, 20, 30⟩, ⟨1, 1, 11, 21, 31⟩], 100, 2, false⟩
        [1, 10, 20] [1, 11]).rows.Pairwise (fun a b => a.uids ≠ b.uids) :=
  ⟨⟨rfl, by decide, by decide⟩,
    C6_uid_tuple_uniqueness ⟨[⟨0, 1, 10, 20, 30, false, false⟩,
        ⟨1, 1, 11, 21, 31, false, false⟩],
        [⟨0, 1, 10, 20, 30⟩, ⟨1, 1, 11, 21, 31⟩], 100, 2, false⟩ _
      ⟨rfl, by decide, by decide⟩
      (Reach6.copyTo _ _ [1, 10, 20] [1, 11] (Reach6.refl _)
        (by decide) (by decide) (by decide))⟩

/-- C8: for a record of generation G at most 3 on a disk-backed
database, `children()` returns one generation-(G+1) record per distinct
value of the generation-(G+1) identifier column among the record's
`data()` rows (which are exactly the record's non-removed index rows),
ordered by first appearance of that value in the index, filtered by the
supplied attribute predicate; every child's UID tuple has length
G+1. -/
theorem C8_children_spec (s : Db) (r : List Nat) (p : List Nat → Bool)
    (hG : r.length ≤ 3) (hpath : s.pathIsNone = false) :
    (∀ row : Row, row ∈ Record.data s r ↔ row ∈ s.rows ∧ row.removed = false
        ∧ (r = [] ∨ row.col (r.length - 1) = r.getLastD 0))
    ∧ (Record.children s r p = (Record.children s r (fun _ => true)).filter p)
    ∧ ((Record.children s r (fun _ => true)).map (fun c => c.getLastD 0)).Nodup
    ∧ (∀ v, v ∈ (Record.children s r (fun _ => true)).map (fun c => c.getLastD 0) ↔
        v ∈ (Record.data s r).map (fun row => row.col r.length))
    ∧ (((Record.children s r (fun _ => true)).map (fun c => c.getLastD 0)).Pairwise
        (fun a b => ((Record.data s r).map (fun row => row.col r.length)).indexOf a
          < ((Record.data s r).map (fun row => row.col r.length)).indexOf b))
    ∧ (∀ c ∈ Record.children s r (fun _ => true), c.length = r.length + 1) := by
  have hch : ∀ q : List Nat → Bool,
      Record.children s r q = Record.records s r (r.length + 1) q := by
    intro q
    unfold Record.children
    rw [if_neg (by omega)]
  have hrec : ∀ q : List Nat → Bool, Record.records s r (r.length + 1) q =
      ((firstOccur ((Record.data s r).map (fun row => row.col r.length))).filterMap
        (fun v => ((Record.data s r).find? (fun row => row.col r.length = v)).map
          (fun row0 => (List.range (r.length + 1)).map row0.col))).filter q := by
    intro q
    simp only [Record.records]
    rw [if_neg (by omega)]
    by_cases hd : (Record.data s r).isEmpty = true
    · rw [if_pos hd]
      have hdnil := List.isEmpty_iff.mp hd
      rw [hdnil]
      simp [firstOccur_nil]
    · rw [if_neg hd]
      simp only [Nat.add_sub_cancel]
  have hmap : (Record.children s r (fun _ => true)).map (fun c => c.getLastD 0)
      = firstOccur ((Record.data s r).map (fun row => row.col r.length)) := by
    rw [hch, hrec, List.filter_true]
    apply filterMap_find_map_lastId
    intro v hv
    have hvm := (mem_firstOccur _ v).mp hv
    obtain ⟨row, hrow, hcol⟩ := List.mem_map.mp hvm
    exact ⟨row, hrow, hcol⟩
  refine ⟨mem_data s r hpath, ?_, ?_, ?_, ?_, ?_⟩
  · rw [hch p, hch (fun _ => true), hrec p, hrec (fun _ => true), List.filter_true]
  · rw [hmap]
    exact nodup_firstOccur _
  · intro v
    rw [hmap]
    exact mem_firstOccur _ v
  · rw [hmap]
    exact pairwise_indexOf_firstOccur _
  · intro c hc
    rw [hch, hrec, List.filter_true] at hc
    obtain ⟨v, hv, hfv⟩ := List.mem_filterMap.mp hc
    obtain ⟨row0, hrow0, hc2⟩ := Option.map_eq_some'.mp hfv
    rw [← hc2]
    simp

/-- Witness for C8: a patient with two studies whose rows interleave;
the distinct study identifiers come out in order of first appearance
and the predicate filter applies on top. -/
theorem C8_witness :
    (([1] : List Nat).length ≤ 3)
    ∧ ((⟨[⟨0, 1, 10, 20, 30, false, false⟩, ⟨1, 1, 11, 21, 31, false, false⟩,
          ⟨2, 1, 10, 22, 32, false, false⟩],
        [⟨0, 1, 10, 20, 30⟩, ⟨1, 1, 11, 21, 31⟩, ⟨2, 1, 10, 22, 32⟩],
        100, 3, false⟩ : Db).pathIsNone = false)
    ∧ Record.children ⟨[⟨0, 1, 10, 20, 30, false, false⟩, ⟨1, 1, 11, 21, 31, false, false⟩,
          ⟨2, 1, 10, 22, 32, false, false⟩],
        [⟨0, 1, 10, 20, 30⟩, ⟨1, 1, 11, 21, 31⟩, ⟨2, 1, 10, 22, 32⟩],
        100, 3, false⟩ [1] (fun c => c.getLastD 0 = 11)
      = (Record.children ⟨[⟨0, 1, 10, 20, 30, false, false⟩,
          ⟨1, 1, 11, 21, 31, false, false⟩, ⟨2, 1, 10, 22, 32, false, false⟩],
        [⟨0, 1, 10, 20, 30⟩, ⟨1, 1, 11, 21, 31⟩, ⟨2, 1, 10, 22, 32⟩],
        100, 3, false⟩ [1] (fun _ => true)).filter (fun c => c.getLastD 0 = 11) :=
  ⟨by decide, rfl,
    (C8_children_spec ⟨[⟨0, 1, 10, 20, 30, false, false⟩, ⟨1, 1, 11, 21, 31, false, false⟩,
          ⟨2, 1, 10, 22, 32, false, false⟩],
        [⟨0, 1, 10, 20, 30⟩, ⟨1, 1, 11, 21, 31⟩, ⟨2, 1, 10, 22, 32⟩],
        100, 3, false⟩ [1] (fun c => c.getLastD 0 = 11) (by decide) rfl).2.1⟩

end DbDicom
